import Mathlib

/-!
Shallow embedding of the core logic of `denoland/bump-workspaces`
(`src/util.ts` and the pure commit-processing loop of `src/mod.ts`).

Strings are handled through their underlying character lists so that every
definition is executable and kernel-reducible.  The semantic-version
operations (`parseSemVer`, `formatSemver`, `increment`) model the
`@std/semver` dependency that `src/util.ts` imports; the regular-expression
matching in the classifier models the JavaScript regex engine's
leftmost-greedy backtracking semantics for the concrete patterns appearing
in the source.
-/

namespace BumpWorkspaces

/-! ## Data model (src/util.ts lines 14-88) -/

/-- `VersionUpdate` from src/util.ts: "major" | "minor" | "patch" | "prerelease". -/
inductive VersionUpdate where
  | major
  | minor
  | patch
  | prerelease
deriving DecidableEq, Repr

/-- `Commit` from src/util.ts. -/
structure Commit where
  subject : String
  body : String
  hash : String
deriving DecidableEq, Repr

/-- `CommitWithTag = Commit & { tag: string }` from src/util.ts. -/
structure CommitWithTag where
  subject : String
  body : String
  hash : String
  tag : String
deriving DecidableEq, Repr

/-- `WorkspaceModule` from src/util.ts (the symbol-keyed `[pathProp]` field is
modelled as a plain `path` field). -/
structure WorkspaceModule where
  name : String
  version : String
  path : String
deriving DecidableEq, Repr

/-- `VersionBump` from src/util.ts. -/
structure VersionBump where
  module : String
  tag : String
  commit : Commit
  version : VersionUpdate
deriving DecidableEq, Repr

/-- `VersionBumpSummary` from src/util.ts. -/
structure VersionBumpSummary where
  module : String
  version : VersionUpdate
  commits : List CommitWithTag
deriving DecidableEq, Repr

/-- The four diagnostic type tags of src/util.ts (`unknown_commit`,
`missing_range`, `unknown_range_commit`, `skipped_commit`).  The spec calls
these `unknown_commit`, `missing_scope`, `unresolved_module` and `skipped`
respectively. -/
inductive DiagnosticType where
  | unknown_commit
  | missing_range
  | unknown_range_commit
  | skipped_commit
deriving DecidableEq, Repr

/-- A diagnostic record: each variant in src/util.ts carries `commit` and
`reason`, differing only in the `type` tag. -/
structure Diagnostic where
  type : DiagnosticType
  commit : Commit
  reason : String
deriving DecidableEq, Repr

/-- `VersionUpdateResult` from src/util.ts. -/
structure VersionUpdateResult where
  «from» : String
  «to» : String
  diff : VersionUpdate
  path : String
  summary : VersionBumpSummary
deriving DecidableEq, Repr

/-! ## SemVer model (the `@std/semver` dependency)

`parse`, `format` and `increment` are imported by src/util.ts from
`@std/semver`.  A parsed version holds numeric `major`/`minor`/`patch`
components, a list of prerelease identifiers (numeric identifiers are parsed
to numbers, the rest stay strings) and a list of build identifiers. -/

/-- A prerelease identifier: a number (for numeric identifiers) or a string. -/
inductive PreId where
  | num (n : Nat)
  | str (s : String)
deriving DecidableEq, Repr

/-- A parsed semantic version, as produced by `@std/semver`'s `parse`. -/
structure SemVer where
  major : Nat
  minor : Nat
  patch : Nat
  prerelease : List PreId
  build : List String
deriving DecidableEq, Repr

def isDigitChar (c : Char) : Bool := '0' ≤ c && c ≤ '9'

def isAsciiLetter (c : Char) : Bool := ('a' ≤ c && c ≤ 'z') || ('A' ≤ c && c ≤ 'Z')

/-- Characters allowed in semver identifiers: `[0-9A-Za-z-]`. -/
def isIdChar (c : Char) : Bool := isDigitChar c || isAsciiLetter c || c = '-'

/-- The numeric-identifier shape `0|[1-9]\d*` (no leading zeros). -/
def isNumericIdent : List Char → Bool
  | [] => false
  | [c] => isDigitChar c
  | c :: rest => isDigitChar c && c ≠ '0' && rest.all isDigitChar

def digitsToNat (l : List Char) : Nat :=
  l.foldl (fun n c => 10 * n + (c.toNat - '0'.toNat)) 0

/-- A valid prerelease identifier: numeric (`0|[1-9]\d*`) or the
non-numeric shape `\d*[a-zA-Z-][a-zA-Z0-9-]*` (equivalently: over
`[0-9A-Za-z-]` and containing at least one letter or hyphen). -/
def isValidPreIdent (l : List Char) : Bool :=
  isNumericIdent l ||
    (!l.isEmpty && l.all isIdChar && l.any (fun c => isAsciiLetter c || c = '-'))

/-- A valid build identifier: `[0-9A-Za-z-]+`. -/
def isValidBuildIdent (l : List Char) : Bool :=
  !l.isEmpty && l.all isIdChar

/-- Split a character list at every occurrence of `sep` (like `"a.b".split(".")`). -/
def splitOnChar (sep : Char) : List Char → List (List Char)
  | [] => [[]]
  | c :: cs =>
    if c = sep then [] :: splitOnChar sep cs
    else
      match splitOnChar sep cs with
      | [] => [[c]]
      | p :: ps => (c :: p) :: ps

/-- Parse one prerelease identifier (already validated): all-digit
identifiers become numbers, the rest stay strings. -/
def preIdOfChars (l : List Char) : PreId :=
  if l.all isDigitChar then .num (digitsToNat l) else .str (String.mk l)

/-- `@std/semver` `parse` on the underlying character list.  The full regular
expression is `^v?MAJOR\.MINOR\.PATCH(-PRERELEASE)?(\+BUILD)?$` with the
identifier shapes above.  Since `-` cannot occur in the numeric core and `+`
cannot occur in any identifier other than as the build separator, matching
is equivalent to: strip an optional `v`, split at the first `+` (at most one
may occur), split the remainder at the first `-`, and validate the parts.
Returns `none` where the library throws on invalid input. -/
def parseSemVerChars (l : List Char) : Option SemVer :=
  let l := match l with
    | 'v' :: rest => rest
    | other => other
  match splitOnChar '+' l with
  | [] => none
  | relPart :: buildParts =>
    if buildParts.length ≥ 2 then none
    else
      let core := relPart.takeWhile (fun c => c ≠ '-')
      let rest := relPart.drop core.length
      match splitOnChar '.' core with
      | [ma, mi, pa] =>
        if isNumericIdent ma && isNumericIdent mi && isNumericIdent pa then
          let pre : Option (List PreId) :=
            match rest with
            | [] => some []
            | _ :: preChars =>
              let ids := splitOnChar '.' preChars
              if ids.all isValidPreIdent then some (ids.map preIdOfChars) else none
          let build : Option (List String) :=
            match buildParts with
            | [] => some []
            | b :: _ =>
              let ids := splitOnChar '.' b
              if ids.all isValidBuildIdent then some (ids.map String.mk) else none
          match pre, build with
          | some p, some b =>
            some ⟨digitsToNat ma, digitsToNat mi, digitsToNat pa, p, b⟩
          | _, _ => none
        else none
      | _ => none

/-- `parse` from `@std/semver`, on strings; `none` models a thrown
`TypeError` on invalid input. -/
def parseSemVer (s : String) : Option SemVer :=
  parseSemVerChars s.data

def formatPreId : PreId → String
  | .num n => toString n
  | .str s => s

/-- `format` from `@std/semver`: `major.minor.patch` followed by
`-pre.ids` when the prerelease list is non-empty and `+build.ids` when the
build list is non-empty. -/
def formatSemver (v : SemVer) : String :=
  toString v.major ++ "." ++ toString v.minor ++ "." ++ toString v.patch
    ++ (if v.prerelease.isEmpty then ""
        else "-" ++ String.intercalate "." (v.prerelease.map formatPreId))
    ++ (if v.build.isEmpty then ""
        else "+" ++ String.intercalate "." v.build)

/-- `bumpPrereleaseNumber` from `@std/semver`'s `increment`: add one to the
last numeric prerelease identifier; if none is numeric, append `0`. -/
def bumpPrereleaseNumber (pre : List PreId) : List PreId :=
  let rec go : List PreId → Option (List PreId)
    | [] => none
    | id :: rest =>
      match go rest with
      | some bumped => some (id :: bumped)
      | none =>
        match id with
        | .num n => some (.num (n + 1) :: rest)
        | .str _ => none
  match go pre with
  | some bumped => bumped
  | none => pre ++ [.num 0]

/-- `increment` from `@std/semver`, restricted to the four release types that
`VersionUpdate` can hold (the only ones src/util.ts passes).  The `major`,
`minor` and `patch` cases bump a prerelease version up to the release it was
announcing (e.g. `1.0.0-5` + `major` = `1.0.0`) instead of moving past it;
`prerelease` acts like `prepatch` on a non-prerelease input.  The result
carries no build metadata. -/
def increment (v : SemVer) (release : VersionUpdate) : SemVer :=
  match release with
  | .major =>
    if v.minor ≠ 0 ∨ v.patch ≠ 0 ∨ v.prerelease = [] then
      ⟨v.major + 1, 0, 0, [], []⟩
    else
      ⟨v.major, 0, 0, [], []⟩
  | .minor =>
    if v.patch ≠ 0 ∨ v.prerelease = [] then
      ⟨v.major, v.minor + 1, 0, [], []⟩
    else
      ⟨v.major, v.minor, 0, [], []⟩
  | .patch =>
    if v.prerelease = [] then
      ⟨v.major, v.minor, v.patch + 1, [], []⟩
    else
      ⟨v.major, v.minor, v.patch, [], []⟩
  | .prerelease =>
    if v.prerelease = [] then
      ⟨v.major, v.minor, v.patch + 1, bumpPrereleaseNumber [], []⟩
    else
      ⟨v.major, v.minor, v.patch, bumpPrereleaseNumber v.prerelease, []⟩

/-! ## Version diff (src/util.ts lines 286-323) -/

/-- `hasPrerelease` from src/util.ts: the parsed prerelease list is present
and non-empty (`parse` always yields a list, possibly empty). -/
def hasPrerelease (v : SemVer) : Bool :=
  !v.prerelease.isEmpty

/-- `calcVersionDiff` from src/util.ts.  `none` models the
`Unexpected manual version update` error thrown at the end of the
function (and the errors thrown by `parse` on invalid version strings). -/
def calcVersionDiff (newVersionStr oldVersionStr : String) : Option VersionUpdate :=
  match parseSemVer newVersionStr, parseSemVer oldVersionStr with
  | some newVersion, some oldVersion =>
    if hasPrerelease newVersion then some .prerelease
    else if newVersion.major ≠ oldVersion.major then some .major
    else if newVersion.minor ≠ oldVersion.minor then some .minor
    else if newVersion.patch ≠ oldVersion.patch then some .patch
    else if hasPrerelease oldVersion && !hasPrerelease newVersion
        && newVersion.major = oldVersion.major
        && newVersion.minor = oldVersion.minor
        && newVersion.patch = oldVersion.patch then
      -- the prerelease version is removed, e.g. 1.0.0-rc.1 -> 1.0.0
      if newVersion.patch ≠ 0 then some .patch
      else if newVersion.minor ≠ 0 then some .minor
      else if newVersion.major ≠ 0 then some .major
      else none
    else none
  | _, _ => none

/-! ## Commit classifier (src/util.ts lines 90-157)

`RE_DEFAULT_PATTERN = /^([^:()]+)(?:\((.+)\))?: (.*)$/`.

The JavaScript regex engine's behaviour on this pattern is deterministic:
group 1 (`[^:()]+`, greedy) must be the maximal non-empty prefix of
characters other than `:`/`(`/`)` — shrinking it cannot help, because the
next character would then still not be `(` or `:`.  After it, the subject
continues with `(`, `:`, `)` or ends.  On `(` the optional group must match
(the empty alternative would need a `:` where the `(` is): `.+` is greedy,
so the engine picks the longest scope followed by the literal `): ` with
scope and trailing description free of line terminators (`.` excludes
them).  On `:` the next character must be a space and the description must
be line-terminator free.  Otherwise there is no match. -/

/-- `[^:()]` — any character (including line terminators) except the three. -/
def isKindChar (c : Char) : Bool :=
  c ≠ ':' && c ≠ '(' && c ≠ ')'

/-- What JavaScript `.` matches: any character except a line terminator. -/
def isDotChar (c : Char) : Bool :=
  c ≠ '\n' && c ≠ '\r' && c ≠ '\u2028' && c ≠ '\u2029'

/-- The three capture groups of `RE_DEFAULT_PATTERN`: kind tag, optional raw
scope list (bound to `module` in the source), and description. -/
structure PatternGroups where
  tag : List Char
  range : Option (List Char)
  message : List Char
deriving DecidableEq, Repr

/-- All splits `(pre, suf)` of a list with `pre ++ suf = l`, ordered by
increasing length of `pre`. -/
def splitsOf : List Char → List (List Char × List Char)
  | [] => [([], [])]
  | c :: cs => ([], c :: cs) :: (splitsOf cs).map (fun p => (c :: p.1, p.2))

/-- All ways the remainder after `(` can be read as `scope ++ "): " ++ msg`
with `scope` matching `.+` and `msg` matching `.*`, ordered by increasing
scope length. -/
def scopeSplits (r : List Char) : List (List Char × List Char) :=
  (splitsOf r).filterMap (fun p =>
    match p.2 with
    | ')' :: ':' :: ' ' :: msg =>
      if !p.1.isEmpty && p.1.all isDotChar && msg.all isDotChar then
        some (p.1, msg)
      else none
    | _ => none)

/-- `RE_DEFAULT_PATTERN.exec` on the subject's characters; `getLast?`
realises the greediness of `.+`. -/
def execDefaultPattern (s : List Char) : Option PatternGroups :=
  let kind := s.takeWhile isKindChar
  let rest := s.drop kind.length
  if kind.isEmpty then none
  else
    match rest with
    | '(' :: r => (scopeSplits r).getLast?.map (fun p => ⟨kind, some p.1, p.2⟩)
    | ':' :: ' ' :: msg => if msg.all isDotChar then some ⟨kind, none, msg⟩ else none
    | _ => none

/-- `TAG_TO_VERSION` from src/util.ts, as an ordered association list
(JavaScript object-literal key order). -/
def TAG_TO_VERSION : List (String × VersionUpdate) :=
  [("BREAKING", .major),
   ("feat", .minor),
   ("deprecation", .patch),
   ("fix", .patch),
   ("perf", .patch),
   ("docs", .patch),
   ("style", .patch),
   ("refactor", .patch),
   ("test", .patch),
   ("chore", .patch)]

/-- `TAG_PRIORITY = Object.keys(TAG_TO_VERSION)` (none of the keys is an
array-index-like string, so object key order is insertion order). -/
def TAG_PRIORITY : List String :=
  TAG_TO_VERSION.map Prod.fst

/-- `DEFAULT_RANGE_REQUIRED` from src/util.ts. -/
def DEFAULT_RANGE_REQUIRED : List String :=
  ["BREAKING", "feat", "fix", "perf", "deprecation"]

/-- Member names of `Object.prototype` in the JavaScript runtime.  Because
`TAG_TO_VERSION` is a plain object literal, the bracket lookup
`TAG_TO_VERSION[tag]` falls back to the prototype chain, and for these keys
it yields the inherited member — a function (for `__proto__`, the prototype
object itself), in particular not `undefined`. -/
def OBJECT_PROTOTYPE_MEMBERS : List String :=
  ["constructor", "hasOwnProperty", "isPrototypeOf", "propertyIsEnumerable",
   "toLocaleString", "toString", "valueOf", "__proto__",
   "__defineGetter__", "__defineSetter__", "__lookupGetter__", "__lookupSetter__"]

/-- Stand-in for the value a prototype-chain hit of `TAG_TO_VERSION[tag]`
stores in a proposal's `version` field.  At runtime that value is the
inherited `Object.prototype` member: a function, equal to none of the four
`VersionUpdate` strings.  The only later read of a proposal's `version`
field is `maxVersion`, which distinguishes only `major`, `minor` and
"anything else", and `prerelease` is the unique `VersionUpdate` outside the
`major`/`minor`/`patch` severity table, so this stand-in leaves every
observable of the pipeline unchanged while keeping the value recognisably
outside the table. -/
def inheritedVersionValue : VersionUpdate := .prerelease

/-- The JavaScript evaluation of `TAG_TO_VERSION[tag]` (src/util.ts line
148): the own property for the ten table keys; otherwise the inherited
`Object.prototype` member — not `undefined`, modelled by
`inheritedVersionValue` — when `tag` names one; otherwise `undefined`
(`none`), the only case the `version === undefined` guard catches. -/
def jsTagToVersion (tag : String) : Option VersionUpdate :=
  match TAG_TO_VERSION.lookup tag with
  | some version => some version
  | none => if tag ∈ OBJECT_PROTOTYPE_MEMBERS then some inheritedVersionValue else none

/-- What JavaScript `\s` matches (space characters used by the
`/\s*,\s*/` scope-list separator). -/
def isJsSpace (c : Char) : Bool :=
  c = ' ' || c = '\t' || c = '\n' || c = '\r' || c = '\x0b' || c = '\x0c' ||
  c = '\u00a0' || c = '\u1680' || ('\u2000' ≤ c && c ≤ '\u200a') ||
  c = '\u2028' || c = '\u2029' || c = '\u202f' || c = '\u205f' ||
  c = '\u3000' || c = '\ufeff'

/-- Does `/\s*,\s*/` match starting at the head of `l`?  (Greedy `\s*`
cannot backtrack usefully: a shorter space run would leave a space where
the `,` is required.) -/
def sepHeadMatches (l : List Char) : Bool :=
  (l.dropWhile isJsSpace).head? == some ','

/-- Consume one `/\s*,\s*/` separator match from the head of `l`. -/
def afterSep (l : List Char) : List Char :=
  match l.dropWhile isJsSpace with
  | ',' :: rest => rest.dropWhile isJsSpace
  | other => other

theorem dropWhile_length_le (p : Char → Bool) (l : List Char) :
    (l.dropWhile p).length ≤ l.length := by
  induction l with
  | nil => simp
  | cons c cs ih =>
    by_cases h : p c = true
    · rw [List.dropWhile_cons_of_pos h]; simp; omega
    · rw [List.dropWhile_cons_of_neg h]

theorem afterSep_length_lt (l : List Char) (h : sepHeadMatches l = true) :
    (afterSep l).length < l.length := by
  unfold sepHeadMatches at h
  unfold afterSep
  rcases hd : l.dropWhile isJsSpace with _ | ⟨c, rest⟩
  · rw [hd] at h
    simp at h
  · rw [hd] at h
    simp at h
    subst h
    show (rest.dropWhile isJsSpace).length < l.length
    have h2 : (',' :: rest).length ≤ l.length := by
      rw [← hd]; exact dropWhile_length_le isJsSpace l
    have h3 := dropWhile_length_le isJsSpace rest
    rw [List.length_cons] at h2
    omega

/-- `module.split(/\s*,\s*/)`: scan for the leftmost separator match,
emit the field before it, and continue after it.  The fuel argument (the
input length at the top call) only makes the recursion structural — each
step consumes at least one character (`afterSep_length_lt`), so the
zero-fuel case is unreachable. -/
def splitCommasAux : Nat → List Char → List Char → List String
  | _, field, [] => [String.mk field.reverse]
  | 0, field, l => [String.mk (field.reverse ++ l)]
  | fuel + 1, field, c :: cs =>
    if sepHeadMatches (c :: cs) then
      String.mk field.reverse :: splitCommasAux fuel [] (afterSep (c :: cs))
    else
      splitCommasAux fuel (c :: field) cs

def splitCommas (s : String) : List String :=
  splitCommasAux s.data.length [] s.data

/-- The scope-list handling of `defaultParseCommitMessage`
(src/util.ts lines 129-133): wildcard expands to every workspace module
name; an absent (or falsy) group yields the empty list; otherwise the raw
scope list is split on `/\s*,\s*/`. -/
def rangeModules (range : Option (List Char)) (workspaceModules : List WorkspaceModule) :
    List String :=
  match range with
  | some r =>
    if String.mk r = "*" then workspaceModules.map (·.name)
    else if String.mk r = "" then []
    else splitCommas (String.mk r)
  | none => []

/-- `defaultParseCommitMessage` from src/util.ts.  `.error` is the
`Diagnostic` return value, `.ok` the `VersionBump[]` one. -/
def defaultParseCommitMessage (commit : Commit) (workspaceModules : List WorkspaceModule) :
    Except Diagnostic (List VersionBump) :=
  match execDefaultPattern commit.subject.data with
  | none =>
    .error ⟨.unknown_commit, commit, "The commit message does not match the default pattern."⟩
  | some g =>
    let tag := String.mk g.tag
    let modules := rangeModules g.range workspaceModules
    if modules = [] then
      if tag ∈ DEFAULT_RANGE_REQUIRED then
        .error ⟨.missing_range, commit, "The commit message does not specify a module."⟩
      else
        .error ⟨.skipped_commit, commit, "The commit message does not specify a module."⟩
    else
      match jsTagToVersion tag with
      | none => .error ⟨.unknown_commit, commit, "Unknown commit tag: " ++ tag ++ "."⟩
      | some version => .ok (modules.map (fun m => ⟨m, tag, commit, version⟩))

/-! ## Bump aggregation (src/util.ts lines 159-198) -/

/-- `maxVersion` from src/util.ts. -/
def maxVersion (v0 v1 : VersionUpdate) : VersionUpdate :=
  if v0 = .major ∨ v1 = .major then .major
  else if v0 = .minor ∨ v1 = .minor then .minor
  else .patch

/-- JavaScript `Array.prototype.indexOf` over `TAG_PRIORITY`: the first
index of the tag, or `-1` when absent. -/
def jsIndexOf (t : String) : List String → Int
  | [] => -1
  | s :: ss =>
    if s = t then 0
    else
      let r := jsIndexOf t ss
      if r = -1 then -1 else r + 1

/-- The priority of a commit tag for the in-module sort
(`TAG_PRIORITY.indexOf(tag)`). -/
def tagPriority (t : String) : Int :=
  jsIndexOf t TAG_PRIORITY

/-- `{ ...versionBump.commit, tag: versionBump.tag }`. -/
def commitWithTag (vb : VersionBump) : CommitWithTag :=
  ⟨vb.commit.subject, vb.commit.body, vb.commit.hash, vb.tag⟩

/-- One step of building the module-keyed record in
`summarizeVersionBumpsByModule`: update the existing entry for the bump's
module (object key order keeps its position) or append a fresh one.  On
creation the source immediately overwrites the seed version with
`maxVersion(version, version)`. -/
def addBump (vb : VersionBump) : List VersionBumpSummary → List VersionBumpSummary
  | [] => [⟨vb.module, maxVersion vb.version vb.version, [commitWithTag vb]⟩]
  | s :: ss =>
    if s.module = vb.module then
      ⟨s.module, maxVersion s.version vb.version, s.commits ++ [commitWithTag vb]⟩ :: ss
    else
      s :: addBump vb ss

/-- Stable insertion for the commit sort: the new element goes before the
first existing element whose priority is not smaller (the comparator
returns `0` on equal priorities, and `Array.prototype.sort` is stable). -/
def insertByPriority (c : CommitWithTag) : List CommitWithTag → List CommitWithTag
  | [] => [c]
  | d :: ds =>
    if tagPriority d.tag < tagPriority c.tag then d :: insertByPriority c ds
    else c :: d :: ds

/-- The `summary.commits.sort(...)` call: a stable sort by `TAG_PRIORITY`
index (insertion from the right preserves encounter order on ties, which is
what the ECMAScript stable-sort guarantee yields). -/
def sortCommits (l : List CommitWithTag) : List CommitWithTag :=
  l.foldr insertByPriority []

/-- JavaScript string `<` (UTF-16 lexicographic; identical to code-point
lexicographic for the basic multilingual plane). -/
def charListLt : List Char → List Char → Bool
  | [], [] => false
  | [], _ :: _ => true
  | _ :: _, [] => false
  | a :: as, b :: bs =>
    if a.toNat < b.toNat then true
    else if b.toNat < a.toNat then false
    else charListLt as bs

def jsStringLt (a b : String) : Bool :=
  charListLt a.data b.data

/-- Insertion step for the final `.sort((a, b) => a.module < b.module ? -1 : 1)`.
Module keys are pairwise distinct by construction, so this strict
comparator determines the sorted order uniquely. -/
def insertSummary (s : VersionBumpSummary) :
    List VersionBumpSummary → List VersionBumpSummary
  | [] => [s]
  | t :: ts =>
    if jsStringLt t.module s.module then t :: insertSummary s ts
    else s :: t :: ts

def sortSummaries (l : List VersionBumpSummary) : List VersionBumpSummary :=
  l.foldr insertSummary []

/-- The grouping pass of `summarizeVersionBumpsByModule`: fold the bumps
into the module-keyed record. -/
def groupBumps (versionBumps : List VersionBump) : List VersionBumpSummary :=
  versionBumps.foldl (fun acc vb => addBump vb acc) []

/-- `summarizeVersionBumpsByModule` from src/util.ts: group the bumps into
the module-keyed record, sort each module's commit list by tag priority,
and return the values sorted by module name. -/
def summarizeVersionBumpsByModule (versionBumps : List VersionBump) :
    List VersionBumpSummary :=
  sortSummaries ((groupBumps versionBumps).map
    (fun s => ⟨s.module, s.version, sortCommits s.commits⟩))

/-! ## Module resolution (src/util.ts lines 265-284) -/

/-- The predicate of `getModule`'s `find` callback: exact name match, or
`name.endsWith("/" + module)` (stated on the character lists, which is
what `String.endsWith` computes). -/
def moduleNameMatches (module : String) (m : WorkspaceModule) : Bool :=
  m.name = module || ("/" ++ module).data.isSuffixOf m.name.data

/-- `getModule` from src/util.ts. -/
def getModule (module : String) (modules : List WorkspaceModule) :
    Option WorkspaceModule :=
  modules.find? (moduleNameMatches module)

/-- `checkModuleName` from src/util.ts. -/
def checkModuleName (versionBump : VersionBump) (modules : List WorkspaceModule) :
    Option Diagnostic :=
  if (getModule versionBump.module modules).isSome then none
  else
    some ⟨.unknown_range_commit, versionBump.commit,
      "Unknown module: " ++ versionBump.module ++ "."⟩

/-! ## The commit loop of `bumpWorkspaces` (src/mod.ts lines 139-165) -/

/-- Helper for the two skip regexes: consume `\d+\.` and return the rest. -/
def digitsDot (s : List Char) : Option (List Char) :=
  let ds := s.takeWhile isDigitChar
  if ds.isEmpty then none
  else
    match s.drop ds.length with
    | '.' :: rest => some rest
    | _ => none

/-- Does the character list start with `\d+\.\d+\.\d+`? -/
def startsWithNumTriple (s : List Char) : Bool :=
  match digitsDot s with
  | none => false
  | some r1 =>
    match digitsDot r1 with
    | none => false
    | some r2 => !(r2.takeWhile isDigitChar).isEmpty

/-- `/^v?\d+\.\d+\.\d+/.test(subject) || /^Release \d+\.\d+\.\d+/.test(subject)`:
the two commit shapes the loop skips before classification. -/
def isSkippedSubject (s : String) : Bool :=
  startsWithNumTriple (match s.data with
    | 'v' :: rest => rest
    | other => other)
  || (match s.data with
    | 'R' :: 'e' :: 'l' :: 'e' :: 'a' :: 's' :: 'e' :: ' ' :: rest =>
      startsWithNumTriple rest
    | _ => false)

/-- The classification loop of `bumpWorkspaces` (src/mod.ts lines 139-164)
with the default parser: skip version-bump/release subjects, collect the
bumps whose module reference resolves, and collect every diagnostic. -/
def processCommits (commits : List Commit) (modules : List WorkspaceModule) :
    List VersionBump × List Diagnostic :=
  commits.foldl
    (fun acc commit =>
      if isSkippedSubject commit.subject then acc
      else
        match defaultParseCommitMessage commit modules with
        | .ok parsed =>
          parsed.foldl
            (fun acc vb =>
              match checkModuleName vb modules with
              | some d => (acc.1, acc.2 ++ [d])
              | none => (acc.1 ++ [vb], acc.2))
            acc
        | .error d => (acc.1, acc.2 ++ [d]))
    ([], [])

/-- Every proposal the loop parses out of the commits, before module
resolution (used to state which proposals survive into aggregation). -/
def okProposals (commits : List Commit) (modules : List WorkspaceModule) :
    List VersionBump :=
  commits.foldl
    (fun acc commit =>
      if isSkippedSubject commit.subject then acc
      else
        match defaultParseCommitMessage commit modules with
        | .ok parsed => acc ++ parsed
        | .error _ => acc)
    []

/-! ## Version reconciliation (src/util.ts lines 325-403) -/

/-- `applyVersionBump` from src/util.ts, restricted to its decision logic:
the file-system write, the `deno.json` string rewrite and the console
output are I/O and are omitted; the returned record carries the
`VersionUpdateResult` fields (`summary` with its `version` overwritten as
the source mutates it).  `none` models the errors thrown by
`calcVersionDiff` and `parse`. -/
def applyVersionBump (summary : VersionBumpSummary) (module : WorkspaceModule)
    (oldModule : Option WorkspaceModule) : Option VersionUpdateResult :=
  match oldModule with
  | none =>
    -- the module is newly added
    match calcVersionDiff module.version "0.0.0" with
    | none => none
    | some diff =>
      some ⟨"0.0.0", module.version, diff, module.path, ⟨summary.module, diff, summary.commits⟩⟩
  | some oldModule =>
    if oldModule.version ≠ module.version then
      -- the version is manually updated
      match calcVersionDiff module.version oldModule.version with
      | none => none
      | some diff =>
        some ⟨oldModule.version, module.version, diff, module.path,
          ⟨summary.module, diff, summary.commits⟩⟩
    else
      match parseSemVer module.version with
      | none => none
      | some currentVersion =>
        let diff :=
          if hasPrerelease currentVersion then
            -- a prerelease current version always bumps as prerelease
            VersionUpdate.prerelease
          else if currentVersion.major = 0 then
            -- 0.x.y: breaking counts as minor, features as patch
            match summary.version with
            | .major => .minor
            | .minor => .patch
            | d => d
          else summary.version
        let newVersionStr := formatSemver (increment currentVersion diff)
        some ⟨module.version, newVersionStr, diff, module.path,
          ⟨summary.module, diff, summary.commits⟩⟩

/-! ## Specification-side definitions

These restate rules in the words of the specification, to be compared with
the definitions above that were translated from the source. -/

/-- The manual-edit diff rule exactly as claim C1 states it: `prerelease`
if the new version carries a prerelease component; else the first of
major, minor, patch whose component differs; else (the prior had a
prerelease, the new does not, at equal `major.minor.patch`) patch if the
new patch is non-zero, else minor if the new minor is non-zero, else
major; the remaining equal-version combinations are the fatal error
(`none`). -/
def specManualDiffRule (newV oldV : SemVer) : Option VersionUpdate :=
  if hasPrerelease newV then some .prerelease
  else if newV.major ≠ oldV.major then some .major
  else if newV.minor ≠ oldV.minor then some .minor
  else if newV.patch ≠ oldV.patch then some .patch
  else if hasPrerelease oldV then
    some (if newV.patch ≠ 0 then .patch
          else if newV.minor ≠ 0 then .minor
          else .major)
  else none

/-- `specManualDiffRule` on version strings (`none` when either string is
not a valid semantic version). -/
def specManualDiffRuleStr (newVersionStr oldVersionStr : String) :
    Option (Option VersionUpdate) :=
  match parseSemVer newVersionStr, parseSemVer oldVersionStr with
  | some n, some o => some (specManualDiffRule n o)
  | _, _ => none

/-- The manual-edit diff rule as amended: in the prerelease-finalization
case, `major` is returned only when the major component is non-zero;
finalizing a prerelease of `0.0.0` is also the fatal error. -/
def specManualDiffRuleAmended (newV oldV : SemVer) : Option VersionUpdate :=
  if hasPrerelease newV then some .prerelease
  else if newV.major ≠ oldV.major then some .major
  else if newV.minor ≠ oldV.minor then some .minor
  else if newV.patch ≠ oldV.patch then some .patch
  else if hasPrerelease oldV then
    if newV.patch ≠ 0 then some .patch
    else if newV.minor ≠ 0 then some .minor
    else if newV.major ≠ 0 then some .major
    else none
  else none

/-- The severity adjustment of claim C2, in the order the spec words it:
first the pre-1.0 downgrade (`major→minor`, `minor→patch` when the current
major component is 0), then the prerelease override. -/
def specAdjustSeverity (current : SemVer) (severity : VersionUpdate) : VersionUpdate :=
  let downgraded :=
    if current.major = 0 then
      match severity with
      | .major => .minor
      | .minor => .patch
      | d => d
    else severity
  if hasPrerelease current then .prerelease else downgraded

/-- The reconciliation of a module whose version did not change, reduced to
the resulting version string (used for claim C2's concrete examples). -/
def reconcileUnchanged (version : String) (severity : VersionUpdate) : Option String :=
  (applyVersionBump ⟨"m", severity, []⟩ ⟨"m", version, "p"⟩ (some ⟨"m", version, "p"⟩)).map
    (·.«to»)

instance {e a : Type} [DecidableEq e] [DecidableEq a] : DecidableEq (Except e a) :=
  fun x y =>
    match x, y with
    | .ok va, .ok vb =>
      if h : va = vb then .isTrue (by rw [h]) else .isFalse (by simp [h])
    | .error va, .error vb =>
      if h : va = vb then .isTrue (by rw [h]) else .isFalse (by simp [h])
    | .ok _, .error _ => .isFalse (by simp)
    | .error _, .ok _ => .isFalse (by simp)

/-! ## Claim theorems -/

/-- Claim C1, counterexample: for the distinct semantic-version strings
`0.0.0-rc.1` (prior) and `0.0.0` (current), the spec's diff rule yields
`major` (prerelease finalized, patch = 0, minor = 0), but `calcVersionDiff`
reports the fatal resolution error. -/
theorem c1_counterexample :
    ("0.0.0" : String) ≠ "0.0.0-rc.1"
    ∧ specManualDiffRuleStr "0.0.0" "0.0.0-rc.1" = some (some .major)
    ∧ calcVersionDiff "0.0.0" "0.0.0-rc.1" = none := by
  refine ⟨by decide, by decide, by decide⟩

/-- Claim C1 as amended: in the prerelease-finalization case the magnitude
is `major` only when the new major component is non-zero; finalizing a
prerelease of `0.0.0` joins the equal-version combinations as a fatal
resolution error.  With that amendment, the manual-edit magnitude computed
by `calcVersionDiff` equals the spec's diff rule on every pair of distinct
semantic-version strings. -/
theorem c1_amended (newS oldS : String) (nV oV : SemVer)
    (hne : newS ≠ oldS)
    (hn : parseSemVer newS = some nV) (ho : parseSemVer oldS = some oV) :
    calcVersionDiff newS oldS = specManualDiffRuleAmended nV oV := by
  unfold calcVersionDiff specManualDiffRuleAmended
  rw [hn, ho]
  by_cases h1 : hasPrerelease nV
  · simp [h1]
  · by_cases h2 : nV.major = oV.major
    · by_cases h3 : nV.minor = oV.minor
      · by_cases h4 : nV.patch = oV.patch
        · simp [h1, h2, h3, h4]
        · simp [h1, h2, h3, h4]
      · simp [h1, h2, h3]
    · simp [h1, h2]

/-- Witness for `c1_amended` at the spec's own example `1.0.0-rc.1 → 1.0.0`. -/
theorem c1_amended_witness :
    calcVersionDiff "1.0.0" "1.0.0-rc.1" =
      specManualDiffRuleAmended ⟨1, 0, 0, [], []⟩ ⟨1, 0, 0, [.str "rc", .num 1], []⟩
    ∧ calcVersionDiff "1.0.0" "1.0.0-rc.1" = some .major :=
  ⟨c1_amended "1.0.0" "1.0.0-rc.1" ⟨1, 0, 0, [], []⟩ ⟨1, 0, 0, [.str "rc", .num 1], []⟩
    (by decide) (by decide) (by decide),
   by decide⟩

/-- Claim C2: for a module whose current version equals its prior snapshot,
the final magnitude is the aggregated severity adjusted by the pre-1.0
downgrade and the prerelease override, and `toVersion` is the current
version incremented by that magnitude; the spec's four concrete increment
examples hold. -/
theorem c2_reconcile (summary : VersionBumpSummary) (module old : WorkspaceModule)
    (cur : SemVer)
    (hsame : old.version = module.version)
    (hcur : parseSemVer module.version = some cur) :
    applyVersionBump summary module (some old) =
      some ⟨module.version,
        formatSemver (increment cur (specAdjustSeverity cur summary.version)),
        specAdjustSeverity cur summary.version, module.path,
        ⟨summary.module, specAdjustSeverity cur summary.version, summary.commits⟩⟩
    ∧ reconcileUnchanged "1.2.3" .patch = some "1.2.4"
    ∧ reconcileUnchanged "0.5.0" .major = some "0.6.0"
    ∧ reconcileUnchanged "0.5.0" .minor = some "0.5.1"
    ∧ (∀ severity, reconcileUnchanged "1.0.0-rc.1" severity = some "1.0.0-rc.2") := by
  refine ⟨?_, by decide, by decide, by decide, fun severity => by cases severity <;> decide⟩
  simp only [applyVersionBump]
  rw [hsame, hcur, if_neg (show ¬(module.version ≠ module.version) from fun h => h rfl)]
  by_cases hp : hasPrerelease cur
  · simp [specAdjustSeverity, hp]
  · by_cases h0 : cur.major = 0
    · simp [specAdjustSeverity, hp, h0]
    · simp [specAdjustSeverity, hp, h0]

/-- Witness for `c2_reconcile`: severity `patch` on an unchanged `1.2.3`. -/
theorem c2_reconcile_witness :
    applyVersionBump ⟨"m", .patch, []⟩ ⟨"m", "1.2.3", "p"⟩ (some ⟨"m", "1.2.3", "p"⟩) =
      some ⟨"1.2.3",
        formatSemver (increment ⟨1, 2, 3, [], []⟩
          (specAdjustSeverity ⟨1, 2, 3, [], []⟩ .patch)),
        specAdjustSeverity ⟨1, 2, 3, [], []⟩ .patch, "p",
        ⟨"m", specAdjustSeverity ⟨1, 2, 3, [], []⟩ .patch, []⟩⟩
    ∧ reconcileUnchanged "1.2.3" .patch = some "1.2.4"
    ∧ reconcileUnchanged "0.5.0" .major = some "0.6.0"
    ∧ reconcileUnchanged "0.5.0" .minor = some "0.5.1"
    ∧ (∀ severity, reconcileUnchanged "1.0.0-rc.1" severity = some "1.0.0-rc.2") :=
  c2_reconcile ⟨"m", .patch, []⟩ ⟨"m", "1.2.3", "p"⟩ ⟨"m", "1.2.3", "p"⟩
    ⟨1, 2, 3, [], []⟩ rfl (by decide)

/-- Claim C6: a module with no prior snapshot reconciles to
`fromVersion = "0.0.0"`, `toVersion` = the current version, and magnitude
= the semantic diff of the current version against `0.0.0`; the
aggregated severity is discarded; a new module at `0.1.0` yields `minor`. -/
theorem c6_new_module (summary : VersionBumpSummary) (module : WorkspaceModule)
    (d : VersionUpdate)
    (hd : calcVersionDiff module.version "0.0.0" = some d) :
    applyVersionBump summary module none =
      some ⟨"0.0.0", module.version, d, module.path,
        ⟨summary.module, d, summary.commits⟩⟩
    ∧ (∀ severity, applyVersionBump ⟨summary.module, severity, summary.commits⟩ module none
        = applyVersionBump summary module none)
    ∧ calcVersionDiff "0.1.0" "0.0.0" = some .minor := by
  refine ⟨?_, ?_, by decide⟩
  · unfold applyVersionBump
    rw [hd]
  · intro severity
    unfold applyVersionBump
    rw [hd]

/-- Witness for `c6_new_module`: a new module at `0.1.0`. -/
theorem c6_new_module_witness :
    applyVersionBump ⟨"m", .major, []⟩ ⟨"m", "0.1.0", "p"⟩ none =
      some ⟨"0.0.0", "0.1.0", .minor, "p", ⟨"m", .minor, []⟩⟩
    ∧ (∀ severity, applyVersionBump ⟨"m", severity, []⟩ ⟨"m", "0.1.0", "p"⟩ none
        = applyVersionBump ⟨"m", .major, []⟩ ⟨"m", "0.1.0", "p"⟩ none)
    ∧ calcVersionDiff "0.1.0" "0.0.0" = some .minor :=
  c6_new_module ⟨"m", .major, []⟩ ⟨"m", "0.1.0", "p"⟩ .minor (by decide)

/-- Claim C10: a module with no prior snapshot whose current version is
exactly `0.0.0` produces no resolution: the diff of `0.0.0` against the
`0.0.0` baseline falls outside every case of the diff rule and is the
fatal resolution error. -/
theorem c10_new_module_zero (summary : VersionBumpSummary) (module : WorkspaceModule)
    (hv : module.version = "0.0.0") :
    applyVersionBump summary module none = none
    ∧ calcVersionDiff "0.0.0" "0.0.0" = none := by
  refine ⟨?_, by decide⟩
  unfold applyVersionBump
  rw [hv, show calcVersionDiff "0.0.0" "0.0.0" = none from by decide]

/-- Witness for `c10_new_module_zero` at a concrete module. -/
theorem c10_new_module_zero_witness :
    applyVersionBump ⟨"m", .patch, []⟩ ⟨"m", "0.0.0", "p"⟩ none = none
    ∧ calcVersionDiff "0.0.0" "0.0.0" = none :=
  c10_new_module_zero ⟨"m", .patch, []⟩ ⟨"m", "0.0.0", "p"⟩ rfl

/-- The subject grammar exactly as claim C3 states it:
`^([^:()]+)(?:\(([^)]+)\))?: (.*)$` — its scope group is `[^)]+`, so a
scope can never contain a closing parenthesis and always ends at the first
one. -/
def execSpecClaimPattern (s : List Char) : Option PatternGroups :=
  let kind := s.takeWhile isKindChar
  let rest := s.drop kind.length
  if kind.isEmpty then none
  else
    match rest with
    | '(' :: r =>
      let sc := r.takeWhile (fun c => c ≠ ')')
      (match r.drop sc.length with
      | ')' :: ':' :: ' ' :: msg =>
        if !sc.isEmpty && msg.all isDotChar then some ⟨kind, some sc, msg⟩ else none
      | _ => none)
    | ':' :: ' ' :: msg => if msg.all isDotChar then some ⟨kind, none, msg⟩ else none
    | _ => none

theorem unknownTagReason_ne (t : String) :
    ("Unknown commit tag: " ++ t ++ ".") ≠
      "The commit message does not match the default pattern." := by
  intro h
  have h2 : some 'U' = some 'T' := congrArg (fun s => s.data.head?) h
  exact absurd (Option.some.inj h2) (by decide)

/-- Claim C3, counterexample: the subject `fix(a(b)): x` does not match the
claimed grammar (its scope group forbids `)` and the first `)` is not
followed by `: `), yet the classifier recognizes it — the source pattern's
scope group is `(.+)` — and returns a proposal for module `a(b)` instead of
an `unknown_commit` diagnostic. -/
theorem c3_counterexample :
    execSpecClaimPattern "fix(a(b)): x".data = none
    ∧ defaultParseCommitMessage ⟨"fix(a(b)): x", "", ""⟩ [] =
        .ok [⟨"a(b)", "fix", ⟨"fix(a(b)): x", "", ""⟩, .patch⟩] := by
  refine ⟨by decide, by decide⟩

/-- Claim C3 as amended: the authoritative grammar is
`^([^:()]+)(?:\((.+)\))?: (.*)$` (the scope group is `(.+)`, greedy, and
may contain parentheses and colons), with group 1 the kind, group 2 the
raw scope list and group 3 the description; the classifier reports the
`unknown_commit` "does not match" diagnostic exactly on subjects this
grammar rejects. -/
theorem c3_amended (commit : Commit) (modules : List WorkspaceModule) :
    defaultParseCommitMessage commit modules =
        .error ⟨.unknown_commit, commit,
          "The commit message does not match the default pattern."⟩
      ↔ execDefaultPattern commit.subject.data = none := by
  rcases hg : execDefaultPattern commit.subject.data with _ | g
  · simp [defaultParseCommitMessage, hg]
  · simp only [defaultParseCommitMessage, hg]
    constructor
    · intro h
      by_cases hm : rangeModules g.range modules = []
      · rw [if_pos hm] at h
        by_cases hr : String.mk g.tag ∈ DEFAULT_RANGE_REQUIRED
        · rw [if_pos hr] at h
          simp at h
        · rw [if_neg hr] at h
          simp at h
      · rw [if_neg hm] at h
        rcases hl : jsTagToVersion (String.mk g.tag) with _ | v
        · rw [hl] at h
          simp at h
          exact (unknownTagReason_ne (String.mk g.tag) h).elim
        · rw [hl] at h
          exact Except.noConfusion h
    · intro h
      exact Option.noConfusion h

/-- Claim C4, counterexample: `bogus: x` matches the grammar shape with an
unrecognized kind, but with an empty scope list the classifier reports
`skipped_commit` (the empty-scope check precedes the kind lookup), not
`unknown_commit`; and `toString(foo): x` — kind not in the severity table
either — returns a proposal array rather than any diagnostic, because
`TAG_TO_VERSION["toString"]` finds the inherited
`Object.prototype.toString` instead of `undefined`. -/
theorem c4_counterexample :
    defaultParseCommitMessage ⟨"bogus: x", "", ""⟩ [⟨"foo", "1.0.0", "p"⟩] =
      .error ⟨.skipped_commit, ⟨"bogus: x", "", ""⟩,
        "The commit message does not specify a module."⟩
    ∧ DiagnosticType.skipped_commit ≠ DiagnosticType.unknown_commit
    ∧ ("toString" : String) ∉ TAG_PRIORITY
    ∧ defaultParseCommitMessage ⟨"toString(foo): x", "", ""⟩ [⟨"foo", "1.0.0", "p"⟩] =
        .ok [⟨"foo", "toString", ⟨"toString(foo): x", "", ""⟩, inheritedVersionValue⟩] := by
  refine ⟨by decide, by decide, by decide, by decide⟩

theorem required_tags_known (t : String) (h : t ∈ DEFAULT_RANGE_REQUIRED) :
    (TAG_TO_VERSION.lookup t).isSome := by
  fin_cases h <;> decide

/-- Claim C4 as amended: a grammar-shaped subject with a non-empty
scope-module list yields `unknown_commit` (citing the kind) when its kind
is neither in the severity table nor a member name of `Object.prototype`;
a kind naming an `Object.prototype` member slips past the `undefined`
guard — the lookup hits the prototype chain — and yields one proposal per
scope module carrying the inherited (out-of-table) value; with an empty
scope list an unrecognized kind is reported `skipped_commit` instead (the
scope check runs first, and every scope-required kind is a recognized
one). -/
theorem c4_amended (commit : Commit) (modules : List WorkspaceModule) (g : PatternGroups)
    (hg : execDefaultPattern commit.subject.data = some g)
    (hlk : TAG_TO_VERSION.lookup (String.mk g.tag) = none)
    (hne : rangeModules g.range modules ≠ []) :
    (String.mk g.tag ∉ OBJECT_PROTOTYPE_MEMBERS →
      defaultParseCommitMessage commit modules =
        .error ⟨.unknown_commit, commit,
          "Unknown commit tag: " ++ String.mk g.tag ++ "."⟩)
    ∧ (String.mk g.tag ∈ OBJECT_PROTOTYPE_MEMBERS →
      defaultParseCommitMessage commit modules =
        .ok ((rangeModules g.range modules).map
          (fun m => ⟨m, String.mk g.tag, commit, inheritedVersionValue⟩)))
    ∧ (∀ c2 : Commit, ∀ g2 : PatternGroups,
        execDefaultPattern c2.subject.data = some g2 →
        TAG_TO_VERSION.lookup (String.mk g2.tag) = none →
        rangeModules g2.range modules = [] →
        defaultParseCommitMessage c2 modules =
          .error ⟨.skipped_commit, c2, "The commit message does not specify a module."⟩) := by
  refine ⟨?_, ?_, ?_⟩
  · intro hproto
    simp only [defaultParseCommitMessage, hg]
    rw [if_neg hne]
    have hv : jsTagToVersion (String.mk g.tag) = none := by
      unfold jsTagToVersion
      rw [hlk, if_neg hproto]
    rw [hv]
  · intro hproto
    simp only [defaultParseCommitMessage, hg]
    rw [if_neg hne]
    have hv : jsTagToVersion (String.mk g.tag) = some inheritedVersionValue := by
      unfold jsTagToVersion
      rw [hlk, if_pos hproto]
    rw [hv]
  · intro c2 g2 hg2 hlk2 hm2
    simp only [defaultParseCommitMessage, hg2]
    rw [if_pos hm2]
    have hr : String.mk g2.tag ∉ DEFAULT_RANGE_REQUIRED := by
      intro hmem
      have h2 := required_tags_known (String.mk g2.tag) hmem
      rw [hlk2] at h2
      exact absurd h2 (by decide)
    rw [if_neg hr]

/-- Witness for `c4_amended` at both `toString(foo): x` (a kind colliding
with an `Object.prototype` member) and `bogus(foo): x` (a plain unknown
kind). -/
theorem c4_amended_witness :
    (("toString" : String) ∈ OBJECT_PROTOTYPE_MEMBERS
      ∧ defaultParseCommitMessage ⟨"toString(foo): x", "", ""⟩ [⟨"foo", "1.0.0", "p"⟩] =
          .ok ((rangeModules (some "foo".data) [⟨"foo", "1.0.0", "p"⟩]).map
            (fun m => ⟨m, String.mk "toString".data, ⟨"toString(foo): x", "", ""⟩,
              inheritedVersionValue⟩)))
    ∧ (("bogus" : String) ∉ OBJECT_PROTOTYPE_MEMBERS
      ∧ defaultParseCommitMessage ⟨"bogus(foo): x", "", ""⟩ [⟨"foo", "1.0.0", "p"⟩] =
          .error ⟨.unknown_commit, ⟨"bogus(foo): x", "", ""⟩,
            "Unknown commit tag: " ++ String.mk "bogus".data ++ "."⟩) :=
  ⟨⟨by decide,
    (c4_amended ⟨"toString(foo): x", "", ""⟩ [⟨"foo", "1.0.0", "p"⟩]
      ⟨"toString".data, some "foo".data, "x".data⟩
      (by decide) (by decide) (by decide)).2.1 (by decide)⟩,
   ⟨by decide,
    (c4_amended ⟨"bogus(foo): x", "", ""⟩ [⟨"foo", "1.0.0", "p"⟩]
      ⟨"bogus".data, some "foo".data, "x".data⟩
      (by decide) (by decide) (by decide)).1 (by decide)⟩⟩

/-- Claim C7, counterexample: `fix(*): x` with an empty known-module list
does not produce one (vacuously zero) proposal per known module — the
wildcard expands to an empty scope list, which falls into the
`missing_range` branch and yields a diagnostic instead of a proposal
list. -/
theorem c7_counterexample :
    defaultParseCommitMessage ⟨"fix(*): x", "", ""⟩ [] =
      .error ⟨.missing_range, ⟨"fix(*): x", "", ""⟩,
        "The commit message does not specify a module."⟩
    ∧ ¬∃ l : List VersionBump, defaultParseCommitMessage ⟨"fix(*): x", "", ""⟩ [] = .ok l := by
  refine ⟨by decide, ?_⟩
  rintro ⟨l, hl⟩
  rw [show defaultParseCommitMessage ⟨"fix(*): x", "", ""⟩ [] =
      .error ⟨.missing_range, ⟨"fix(*): x", "", ""⟩,
        "The commit message does not specify a module."⟩ from by decide] at hl
  exact Except.noConfusion hl

/-- Claim C7 as amended: with an empty scope list, scope-required kinds
(`BREAKING, feat, fix, perf, deprecation`) yield `missing_range` and every
other kind in the table yields `skipped_commit`; a wildcard scope expands
to one proposal per known module (sharing kind and commit) provided at
least one module is known — with none, the wildcard falls into the
empty-scope rules. -/
theorem c7_amended (commit : Commit) (modules : List WorkspaceModule) (g : PatternGroups)
    (hg : execDefaultPattern commit.subject.data = some g) :
    (g.range = none → String.mk g.tag ∈ DEFAULT_RANGE_REQUIRED →
      defaultParseCommitMessage commit modules =
        .error ⟨.missing_range, commit, "The commit message does not specify a module."⟩)
    ∧ (g.range = none → String.mk g.tag ∉ DEFAULT_RANGE_REQUIRED →
      defaultParseCommitMessage commit modules =
        .error ⟨.skipped_commit, commit, "The commit message does not specify a module."⟩)
    ∧ (∀ v, g.range = some ['*'] → modules ≠ [] →
        TAG_TO_VERSION.lookup (String.mk g.tag) = some v →
        defaultParseCommitMessage commit modules =
          .ok (modules.map (fun m => ⟨m.name, String.mk g.tag, commit, v⟩))) := by
  refine ⟨?_, ?_, ?_⟩
  · intro hrange hreq
    simp only [defaultParseCommitMessage, hg, hrange]
    rw [show rangeModules none modules = [] from rfl, if_pos rfl, if_pos hreq]
  · intro hrange hreq
    simp only [defaultParseCommitMessage, hg, hrange]
    rw [show rangeModules none modules = [] from rfl, if_pos rfl, if_neg hreq]
  · intro v hrange hmods hv
    simp only [defaultParseCommitMessage, hg, hrange]
    have hrm : rangeModules (some ['*']) modules = modules.map (·.name) := by
      simp [rangeModules]
    rw [hrm]
    have hne2 : modules.map (·.name) ≠ [] := by
      intro h
      exact hmods (List.map_eq_nil_iff.mp h)
    have hv2 : jsTagToVersion (String.mk g.tag) = some v := by
      unfold jsTagToVersion
      rw [hv]
    rw [if_neg hne2, hv2]
    show Except.ok ((modules.map (fun x => x.name)).map
        (fun m => (⟨m, String.mk g.tag, commit, v⟩ : VersionBump))) = _
    rw [List.map_map]
    rfl

/-- Witness for `c7_amended` covering the wildcard expansion. -/
theorem c7_amended_witness :
    (some ['*'] = (none : Option (List Char)) → String.mk "fix".data ∈ DEFAULT_RANGE_REQUIRED →
      defaultParseCommitMessage ⟨"fix(*): x", "", ""⟩ [⟨"foo", "1.0.0", "p"⟩] =
        .error ⟨.missing_range, ⟨"fix(*): x", "", ""⟩,
          "The commit message does not specify a module."⟩)
    ∧ (some ['*'] = (none : Option (List Char)) → String.mk "fix".data ∉ DEFAULT_RANGE_REQUIRED →
      defaultParseCommitMessage ⟨"fix(*): x", "", ""⟩ [⟨"foo", "1.0.0", "p"⟩] =
        .error ⟨.skipped_commit, ⟨"fix(*): x", "", ""⟩,
          "The commit message does not specify a module."⟩)
    ∧ (∀ v, some ['*'] = some ['*'] → [(⟨"foo", "1.0.0", "p"⟩ : WorkspaceModule)] ≠ [] →
        TAG_TO_VERSION.lookup (String.mk "fix".data) = some v →
        defaultParseCommitMessage ⟨"fix(*): x", "", ""⟩ [⟨"foo", "1.0.0", "p"⟩] =
          .ok (([⟨"foo", "1.0.0", "p"⟩] : List WorkspaceModule).map
            (fun m => ⟨m.name, String.mk "fix".data, ⟨"fix(*): x", "", ""⟩, v⟩))) :=
  c7_amended ⟨"fix(*): x", "", ""⟩ [⟨"foo", "1.0.0", "p"⟩]
    ⟨"fix".data, some ['*'], "x".data⟩ (by decide)

/-! ## Lemmas about the grouping pass -/

/-- The version the grouping fold accumulates for one module, as a function
of that module's encounter-ordered severity list. -/
def aggregateSeverity : List VersionUpdate → Option VersionUpdate
  | [] => none
  | v :: vs => some (vs.foldl maxVersion (maxVersion v v))

theorem addBump_keys (vb : VersionBump) (acc : List VersionBumpSummary) :
    (addBump vb acc).map (·.module) =
      if vb.module ∈ acc.map (·.module) then acc.map (·.module)
      else acc.map (·.module) ++ [vb.module] := by
  induction acc with
  | nil => simp [addBump]
  | cons s ss ih =>
    by_cases h : s.module = vb.module
    · simp [addBump, h]
    · simp only [addBump, if_neg h, List.map_cons, ih]
      by_cases hm : vb.module ∈ ss.map (·.module)
      · rw [if_pos hm, if_pos (by simp [hm])]
      · rw [if_neg hm, if_neg (show vb.module ∉ s.module :: ss.map (·.module) by
          simp only [List.mem_cons]
          rintro (hh | hh)
          · exact h hh.symm
          · exact hm hh), List.cons_append]

theorem addBump_keys_nodup (vb : VersionBump) (acc : List VersionBumpSummary)
    (h : (acc.map (·.module)).Nodup) :
    ((addBump vb acc).map (·.module)).Nodup := by
  rw [addBump_keys]
  by_cases hm : vb.module ∈ acc.map (·.module)
  · rwa [if_pos hm]
  · rw [if_neg hm]
    exact List.Nodup.append h (List.nodup_singleton _) (by simpa using hm)

theorem mem_addBump (vb : VersionBump) (acc : List VersionBumpSummary)
    (s : VersionBumpSummary) (h : s ∈ addBump vb acc)
    (hnd : (acc.map (·.module)).Nodup) :
    (s ∈ acc ∧ s.module ≠ vb.module)
    ∨ (∃ s0, s0 ∈ acc ∧ s0.module = vb.module ∧
        s = ⟨s0.module, maxVersion s0.version vb.version,
          s0.commits ++ [commitWithTag vb]⟩)
    ∨ (vb.module ∉ acc.map (·.module) ∧
        s = ⟨vb.module, maxVersion vb.version vb.version, [commitWithTag vb]⟩) := by
  induction acc with
  | nil =>
    simp only [addBump, List.mem_singleton] at h
    exact Or.inr (Or.inr ⟨by simp, h⟩)
  | cons t ts ih =>
    simp only [List.map_cons, List.nodup_cons] at hnd
    by_cases ht : t.module = vb.module
    · rw [addBump, if_pos ht] at h
      rcases List.mem_cons.mp h with h1 | h2
      · exact Or.inr (Or.inl ⟨t, List.mem_cons_self t ts, ht, h1⟩)
      · refine Or.inl ⟨List.mem_cons_of_mem t h2, ?_⟩
        intro hsm
        exact hnd.1 (by
          rw [ht, ← hsm]
          exact List.mem_map_of_mem (·.module) h2)
    · rw [addBump, if_neg ht] at h
      rcases List.mem_cons.mp h with h1 | h2
      · exact Or.inl ⟨by simp [h1], by rw [h1]; exact ht⟩
      · rcases ih h2 hnd.2 with ⟨ha, hb⟩ | ⟨s0, hs0, hmod, hs⟩ | ⟨hna, hs⟩
        · exact Or.inl ⟨List.mem_cons_of_mem t ha, hb⟩
        · exact Or.inr (Or.inl ⟨s0, List.mem_cons_of_mem t hs0, hmod, hs⟩)
        · refine Or.inr (Or.inr ⟨?_, hs⟩)
          simp only [List.map_cons, List.mem_cons]
          rintro (hh | hh)
          · exact ht hh.symm
          · exact hna hh

theorem groupBumps_append (bs : List VersionBump) (vb : VersionBump) :
    groupBumps (bs ++ [vb]) = addBump vb (groupBumps bs) := by
  simp [groupBumps, List.foldl_append]

theorem groupBumps_keys_nodup (bs : List VersionBump) :
    ((groupBumps bs).map (·.module)).Nodup := by
  induction bs using List.reverseRecOn with
  | nil => simp [groupBumps]
  | append_singleton bs vb ih =>
    rw [groupBumps_append]
    exact addBump_keys_nodup vb (groupBumps bs) ih

theorem groupBumps_keys_mem (bs : List VersionBump) (m : String) :
    m ∈ (groupBumps bs).map (·.module) ↔ m ∈ bs.map (·.module) := by
  induction bs using List.reverseRecOn with
  | nil => simp [groupBumps]
  | append_singleton bs vb ih =>
    rw [groupBumps_append, addBump_keys]
    by_cases hm : vb.module ∈ (groupBumps bs).map (·.module)
    · rw [if_pos hm]
      simp only [List.map_append, List.map_cons, List.map_nil, List.mem_append,
        List.mem_singleton]
      constructor
      · intro h; exact Or.inl (ih.mp h)
      · rintro (h | h)
        · exact ih.mpr h
        · rw [h]; exact hm
    · rw [if_neg hm]
      simp only [List.map_append, List.map_cons, List.map_nil, List.mem_append,
        List.mem_singleton, ih]

theorem filter_eq_nil_of_not_mem_keys (bs : List VersionBump) (m : String)
    (h : m ∉ bs.map (·.module)) :
    bs.filter (fun vb => vb.module = m) = [] := by
  rw [List.filter_eq_nil_iff]
  intro vb hvb
  simp only [decide_eq_true_eq]
  intro hh
  exact h (by rw [← hh]; exact List.mem_map_of_mem (·.module) hvb)

theorem aggregateSeverity_append (vs : List VersionUpdate) (v : VersionUpdate) :
    aggregateSeverity (vs ++ [v]) =
      match aggregateSeverity vs with
      | none => some (maxVersion v v)
      | some m => some (maxVersion m v) := by
  cases vs with
  | nil => rfl
  | cons w ws => simp [aggregateSeverity, List.foldl_append]

/-- Content of the grouping fold: each entry holds exactly its module's
commits in encounter order, and the fold of `maxVersion` over its module's
severities. -/
theorem groupBumps_entry (bs : List VersionBump) (s : VersionBumpSummary)
    (hs : s ∈ groupBumps bs) :
    s.commits = (bs.filter (fun vb => vb.module = s.module)).map commitWithTag
    ∧ some s.version =
        aggregateSeverity ((bs.filter (fun vb => vb.module = s.module)).map (·.version)) := by
  induction bs using List.reverseRecOn generalizing s with
  | nil => simp [groupBumps] at hs
  | append_singleton bs vb ih =>
    rw [groupBumps_append] at hs
    have hfl : ∀ m : String, (bs ++ [vb]).filter (fun vb' => vb'.module = m) =
        bs.filter (fun vb' => vb'.module = m) ++ if vb.module = m then [vb] else [] := by
      intro m
      rw [List.filter_append]
      congr 1
      by_cases hvm : vb.module = m
      · simp [hvm]
      · simp [hvm]
    rcases mem_addBump vb (groupBumps bs) s hs (groupBumps_keys_nodup bs) with
      ⟨ha, hb⟩ | ⟨s0, hs0, hmod, hseq⟩ | ⟨hna, hseq⟩
    · rw [hfl s.module, if_neg (Ne.symm hb)]
      simpa using ih s ha
    · subst hseq
      obtain ⟨hc, hv⟩ := ih s0 hs0
      refine ⟨?_, ?_⟩
      · show s0.commits ++ [commitWithTag vb] = _
        rw [hfl s0.module, if_pos hmod.symm, List.map_append, ← hc]
        rfl
      · show some (maxVersion s0.version vb.version) = _
        rw [hfl s0.module, if_pos hmod.symm, List.map_append]
        simp only [List.map_cons, List.map_nil]
        rw [aggregateSeverity_append, ← hv]
    · subst hseq
      have hmem : vb.module ∉ bs.map (·.module) :=
        fun hh => hna ((groupBumps_keys_mem bs _).mpr hh)
      refine ⟨?_, ?_⟩
      · show [commitWithTag vb] = _
        rw [hfl vb.module, if_pos rfl, filter_eq_nil_of_not_mem_keys bs _ hmem]
        rfl
      · show some (maxVersion vb.version vb.version) = _
        rw [hfl vb.module, if_pos rfl, filter_eq_nil_of_not_mem_keys bs _ hmem]
        rfl

/-! ## Lemmas about the commit sort -/

theorem insertByPriority_perm (c : CommitWithTag) (l : List CommitWithTag) :
    List.Perm (insertByPriority c l) (c :: l) := by
  induction l with
  | nil => exact List.Perm.refl _
  | cons d ds ih =>
    by_cases h : tagPriority d.tag < tagPriority c.tag
    · rw [insertByPriority, if_pos h]
      exact (ih.cons d).trans (List.Perm.swap c d ds)
    · rw [insertByPriority, if_neg h]

theorem sortCommits_perm (l : List CommitWithTag) : List.Perm (sortCommits l) l := by
  induction l with
  | nil => exact List.Perm.refl _
  | cons c cs ih =>
    show List.Perm (insertByPriority c (sortCommits cs)) (c :: cs)
    exact (insertByPriority_perm c (sortCommits cs)).trans (ih.cons c)

theorem insertByPriority_pairwise (c : CommitWithTag) (l : List CommitWithTag)
    (h : l.Pairwise (fun a b => tagPriority a.tag ≤ tagPriority b.tag)) :
    (insertByPriority c l).Pairwise (fun a b => tagPriority a.tag ≤ tagPriority b.tag) := by
  induction l with
  | nil => simp [insertByPriority]
  | cons d ds ih =>
    rw [List.pairwise_cons] at h
    by_cases hd : tagPriority d.tag < tagPriority c.tag
    · rw [insertByPriority, if_pos hd, List.pairwise_cons]
      refine ⟨?_, ih h.2⟩
      intro x hx
      have hx2 := (insertByPriority_perm c ds).mem_iff.mp hx
      rcases List.mem_cons.mp hx2 with rfl | hx3
      · exact le_of_lt hd
      · exact h.1 x hx3
    · rw [insertByPriority, if_neg hd, List.pairwise_cons]
      refine ⟨?_, List.pairwise_cons.mpr h⟩
      intro x hx
      rcases List.mem_cons.mp hx with rfl | hx2
      · exact le_of_not_lt hd
      · exact le_trans (le_of_not_lt hd) (h.1 x hx2)

theorem sortCommits_pairwise (l : List CommitWithTag) :
    (sortCommits l).Pairwise (fun a b => tagPriority a.tag ≤ tagPriority b.tag) := by
  induction l with
  | nil => simp [sortCommits]
  | cons c cs ih => exact insertByPriority_pairwise c (sortCommits cs) ih

theorem filter_insertByPriority_of_ne (c : CommitWithTag) (l : List CommitWithTag)
    (t : String) (h : c.tag ≠ t) :
    (insertByPriority c l).filter (fun x => x.tag = t) =
      l.filter (fun x => x.tag = t) := by
  induction l with
  | nil => simp [insertByPriority, h]
  | cons d ds ih =>
    by_cases hd : tagPriority d.tag < tagPriority c.tag
    · rw [insertByPriority, if_pos hd]
      simp only [List.filter_cons, ih]
    · rw [insertByPriority, if_neg hd]
      simp only [List.filter_cons, decide_eq_true_eq]
      rw [if_neg h]

theorem filter_insertByPriority_of_eq (c : CommitWithTag) (l : List CommitWithTag)
    (t : String) (h : c.tag = t)
    (hs : l.Pairwise (fun a b => tagPriority a.tag ≤ tagPriority b.tag)) :
    (insertByPriority c l).filter (fun x => x.tag = t) =
      c :: l.filter (fun x => x.tag = t) := by
  induction l with
  | nil => simp [insertByPriority, h]
  | cons d ds ih =>
    rw [List.pairwise_cons] at hs
    by_cases hd : tagPriority d.tag < tagPriority c.tag
    · rw [insertByPriority, if_pos hd]
      have hdt : d.tag ≠ t := by
        intro hh
        have : tagPriority d.tag = tagPriority c.tag := by rw [hh, ← h]
        rw [this] at hd
        exact lt_irrefl _ hd
      simp only [List.filter_cons, decide_eq_true_eq]
      rw [if_neg hdt, if_neg hdt, ih hs.2]
    · rw [insertByPriority, if_neg hd]
      simp only [List.filter_cons, decide_eq_true_eq]
      rw [if_pos h]

theorem filter_sortCommits (l : List CommitWithTag) (t : String) :
    (sortCommits l).filter (fun x => x.tag = t) = l.filter (fun x => x.tag = t) := by
  induction l with
  | nil => rfl
  | cons c cs ih =>
    show (insertByPriority c (sortCommits cs)).filter (fun x => x.tag = t) = _
    by_cases h : c.tag = t
    · rw [filter_insertByPriority_of_eq c _ t h (sortCommits_pairwise cs), ih,
        List.filter_cons, if_pos (by simpa using h)]
    · rw [filter_insertByPriority_of_ne c _ t h, ih,
        List.filter_cons, if_neg (by simpa using h)]

/-! ## Lemmas about the module-name order and the final sort -/

theorem charListLt_irrefl (a : List Char) : charListLt a a = false := by
  induction a with
  | nil => rfl
  | cons c cs ih => simp [charListLt, ih]

theorem charListLt_trans (a b c : List Char) (hab : charListLt a b = true)
    (hbc : charListLt b c = true) : charListLt a c = true := by
  induction a generalizing b c with
  | nil =>
    cases b with
    | nil => exact absurd hab (by simp [charListLt])
    | cons y ys =>
      cases c with
      | nil => exact absurd hbc (by simp [charListLt])
      | cons z zs => simp [charListLt]
  | cons x xs ih =>
    cases b with
    | nil => exact absurd hab (by simp [charListLt])
    | cons y ys =>
      cases c with
      | nil => exact absurd hbc (by simp [charListLt])
      | cons z zs =>
        rw [charListLt] at hab hbc ⊢
        by_cases h1 : x.toNat < y.toNat
        · by_cases h3 : y.toNat < z.toNat
          · rw [if_pos (show x.toNat < z.toNat by omega)]
          · by_cases h4 : z.toNat < y.toNat
            · rw [if_neg h3, if_pos h4] at hbc
              exact Bool.noConfusion hbc
            · rw [if_pos (show x.toNat < z.toNat by omega)]
        · by_cases h2 : y.toNat < x.toNat
          · rw [if_neg h1, if_pos h2] at hab
            exact Bool.noConfusion hab
          · rw [if_neg h1, if_neg h2] at hab
            by_cases h3 : y.toNat < z.toNat
            · rw [if_pos (show x.toNat < z.toNat by omega)]
            · by_cases h4 : z.toNat < y.toNat
              · rw [if_neg h3, if_pos h4] at hbc
                exact Bool.noConfusion hbc
              · rw [if_neg h3, if_neg h4] at hbc
                rw [if_neg (show ¬x.toNat < z.toNat by omega),
                  if_neg (show ¬z.toNat < x.toNat by omega)]
                exact ih ys zs hab hbc

theorem charListLt_connex (a b : List Char) (h : a ≠ b) :
    charListLt a b = true ∨ charListLt b a = true := by
  induction a generalizing b with
  | nil =>
    cases b with
    | nil => exact absurd rfl h
    | cons y ys => exact Or.inl (by simp [charListLt])
  | cons x xs ih =>
    cases b with
    | nil => exact Or.inr (by simp [charListLt])
    | cons y ys =>
      by_cases h1 : x.toNat < y.toNat
      · exact Or.inl (by rw [charListLt, if_pos h1])
      · by_cases h2 : y.toNat < x.toNat
        · exact Or.inr (by rw [charListLt, if_pos h2])
        · have hn : x.toNat = y.toNat :=
            le_antisymm (le_of_not_lt h2) (le_of_not_lt h1)
          have hxy : x = y := Char.eq_of_val_eq (UInt32.ext hn)
          have hxs : xs ≠ ys := by
            intro hh
            exact h (by rw [hxy, hh])
          rcases ih ys hxs with hl | hl
          · exact Or.inl (by rw [charListLt, if_neg h1, if_neg h2]; exact hl)
          · exact Or.inr (by
              rw [charListLt, if_neg h2, if_neg h1]
              exact hl)

theorem jsStringLt_trans (a b c : String) (hab : jsStringLt a b = true)
    (hbc : jsStringLt b c = true) : jsStringLt a c = true :=
  charListLt_trans a.data b.data c.data hab hbc

theorem jsStringLt_irrefl (a : String) : jsStringLt a a = false :=
  charListLt_irrefl a.data

theorem jsStringLt_connex (a b : String) (h : a ≠ b) :
    jsStringLt a b = true ∨ jsStringLt b a = true := by
  refine charListLt_connex a.data b.data ?_
  intro hd
  exact h (by
    rcases a with ⟨da⟩
    rcases b with ⟨db⟩
    exact congrArg String.mk hd)

/-! ## Lemmas about the final summary sort -/

theorem insertSummary_perm (s : VersionBumpSummary) (l : List VersionBumpSummary) :
    List.Perm (insertSummary s l) (s :: l) := by
  induction l with
  | nil => exact List.Perm.refl _
  | cons t ts ih =>
    by_cases h : jsStringLt t.module s.module
    · rw [insertSummary, if_pos h]
      exact (ih.cons t).trans (List.Perm.swap s t ts)
    · rw [insertSummary, if_neg h]

theorem sortSummaries_perm (l : List VersionBumpSummary) :
    List.Perm (sortSummaries l) l := by
  induction l with
  | nil => exact List.Perm.refl _
  | cons s ss ih =>
    show List.Perm (insertSummary s (sortSummaries ss)) (s :: ss)
    exact (insertSummary_perm s (sortSummaries ss)).trans (ih.cons s)

theorem insertSummary_pairwise (s : VersionBumpSummary) (l : List VersionBumpSummary)
    (hl : l.Pairwise (fun a b => jsStringLt a.module b.module = true))
    (hne : ∀ t ∈ l, t.module ≠ s.module) :
    (insertSummary s l).Pairwise (fun a b => jsStringLt a.module b.module = true) := by
  induction l with
  | nil => simp [insertSummary]
  | cons t ts ih =>
    rw [List.pairwise_cons] at hl
    have hts : t.module ≠ s.module := hne t (List.mem_cons_self t ts)
    by_cases hd : jsStringLt t.module s.module
    · rw [insertSummary, if_pos hd, List.pairwise_cons]
      refine ⟨?_, ih hl.2 (fun u hu => hne u (List.mem_cons_of_mem t hu))⟩
      intro x hx
      have hx2 := (insertSummary_perm s ts).mem_iff.mp hx
      rcases List.mem_cons.mp hx2 with rfl | hx3
      · exact hd
      · exact hl.1 x hx3
    · rw [insertSummary, if_neg hd, List.pairwise_cons]
      have hst : jsStringLt s.module t.module = true := by
        rcases jsStringLt_connex t.module s.module hts with hl1 | hl2
        · exact absurd hl1 hd
        · exact hl2
      refine ⟨?_, List.pairwise_cons.mpr hl⟩
      intro x hx
      rcases List.mem_cons.mp hx with rfl | hx3
      · exact hst
      · exact jsStringLt_trans _ _ _ hst (hl.1 x hx3)

theorem sortSummaries_pairwise (l : List VersionBumpSummary)
    (hnd : (l.map (·.module)).Nodup) :
    (sortSummaries l).Pairwise (fun a b => jsStringLt a.module b.module = true) := by
  induction l with
  | nil => simp [sortSummaries]
  | cons s ss ih =>
    simp only [List.map_cons, List.nodup_cons] at hnd
    show (insertSummary s (sortSummaries ss)).Pairwise _
    refine insertSummary_pairwise s (sortSummaries ss) (ih hnd.2) ?_
    intro t ht hmod
    exact hnd.1 (by
      rw [← hmod]
      exact List.mem_map_of_mem (·.module) ((sortSummaries_perm ss).mem_iff.mp ht))

/-! ## Membership form of the aggregator output -/

theorem mem_summarize (bs : List VersionBump) (s : VersionBumpSummary) :
    s ∈ summarizeVersionBumpsByModule bs ↔
      ∃ s0 ∈ groupBumps bs, s = ⟨s0.module, s0.version, sortCommits s0.commits⟩ := by
  unfold summarizeVersionBumpsByModule
  rw [(sortSummaries_perm _).mem_iff, List.mem_map]
  constructor
  · rintro ⟨s0, hs0, rfl⟩
    exact ⟨s0, hs0, rfl⟩
  · rintro ⟨s0, hs0, rfl⟩
    exact ⟨s0, hs0, rfl⟩

theorem summarize_keys_perm (bs : List VersionBump) :
    List.Perm ((summarizeVersionBumpsByModule bs).map (·.module))
      ((groupBumps bs).map (·.module)) := by
  unfold summarizeVersionBumpsByModule
  refine ((sortSummaries_perm _).map (·.module)).trans ?_
  rw [List.map_map]
  exact List.Perm.refl _

theorem summarize_pairwise (bs : List VersionBump) :
    (summarizeVersionBumpsByModule bs).Pairwise
      (fun a b => jsStringLt a.module b.module = true) := by
  unfold summarizeVersionBumpsByModule
  refine sortSummaries_pairwise _ ?_
  rw [List.map_map]
  exact groupBumps_keys_nodup bs

/-- Claim C5: the aggregator's output list is ordered by module name
(JavaScript string `<`), independent of commit order; within each module
the commit list is sorted by the fixed `TAG_PRIORITY` table with ties kept
in encounter order (stated as: restricting a module's sorted commit list
to one tag reproduces that module's matching input bumps in input order);
and the output module order is the same for any permutation of the input. -/
theorem c5_summarize_order (bs bs' : List VersionBump) (hperm : List.Perm bs bs') :
    (summarizeVersionBumpsByModule bs).Pairwise
      (fun a b => jsStringLt a.module b.module = true)
    ∧ (∀ s ∈ summarizeVersionBumpsByModule bs,
        s.commits.Pairwise (fun a b => tagPriority a.tag ≤ tagPriority b.tag))
    ∧ (∀ s ∈ summarizeVersionBumpsByModule bs, ∀ t : String,
        s.commits.filter (fun c => c.tag = t) =
          (bs.filter (fun vb => vb.module = s.module ∧ vb.tag = t)).map commitWithTag)
    ∧ (summarizeVersionBumpsByModule bs).map (·.module) =
        (summarizeVersionBumpsByModule bs').map (·.module) := by
  refine ⟨summarize_pairwise bs, ?_, ?_, ?_⟩
  · intro s hs
    rcases (mem_summarize bs s).mp hs with ⟨s0, _, rfl⟩
    exact sortCommits_pairwise s0.commits
  · intro s hs t
    rcases (mem_summarize bs s).mp hs with ⟨s0, hs0, rfl⟩
    show (sortCommits s0.commits).filter (fun c => c.tag = t) = _
    rw [filter_sortCommits, (groupBumps_entry bs s0 hs0).1, List.filter_map]
    show _ = List.map commitWithTag _
    congr 1
    rw [List.filter_filter]
    refine List.filter_congr ?_
    intro vb _
    by_cases h1 : vb.tag = t <;> by_cases h2 : vb.module = s0.module <;>
      simp [commitWithTag, h1, h2]
  · have hanti : IsAntisymm String (fun a b => jsStringLt a b = true) :=
      ⟨fun a b h1 h2 => absurd (jsStringLt_trans a b a h1 h2)
        (by simp [jsStringLt_irrefl])⟩
    have hp : List.Perm ((summarizeVersionBumpsByModule bs).map (·.module))
        ((summarizeVersionBumpsByModule bs').map (·.module)) := by
      refine (summarize_keys_perm bs).trans
        (List.Perm.trans ?_ (summarize_keys_perm bs').symm)
      refine (List.perm_ext_iff_of_nodup (groupBumps_keys_nodup bs)
        (groupBumps_keys_nodup bs')).mpr ?_
      intro m
      rw [groupBumps_keys_mem, groupBumps_keys_mem]
      exact (hperm.map (·.module)).mem_iff
    exact @List.eq_of_perm_of_sorted String (fun a b => jsStringLt a b = true) hanti _ _
      hp (List.pairwise_map.mpr (summarize_pairwise bs))
      (List.pairwise_map.mpr (summarize_pairwise bs'))

/-- Witness for `c5_summarize_order` on a two-bump input and its swap. -/
theorem c5_summarize_order_witness :
    (summarizeVersionBumpsByModule
        [⟨"b", "feat", ⟨"s1", "", "h1"⟩, .minor⟩, ⟨"a", "fix", ⟨"s2", "", "h2"⟩, .patch⟩]).Pairwise
      (fun a b => jsStringLt a.module b.module = true)
    ∧ (∀ s ∈ summarizeVersionBumpsByModule
        [⟨"b", "feat", ⟨"s1", "", "h1"⟩, .minor⟩, ⟨"a", "fix", ⟨"s2", "", "h2"⟩, .patch⟩],
        s.commits.Pairwise (fun a b => tagPriority a.tag ≤ tagPriority b.tag))
    ∧ (∀ s ∈ summarizeVersionBumpsByModule
        [⟨"b", "feat", ⟨"s1", "", "h1"⟩, .minor⟩, ⟨"a", "fix", ⟨"s2", "", "h2"⟩, .patch⟩],
        ∀ t : String,
        s.commits.filter (fun c => c.tag = t) =
          ([⟨"b", "feat", ⟨"s1", "", "h1"⟩, .minor⟩,
            ⟨"a", "fix", ⟨"s2", "", "h2"⟩, .patch⟩].filter
              (fun vb => vb.module = s.module ∧ vb.tag = t)).map commitWithTag)
    ∧ (summarizeVersionBumpsByModule
        [⟨"b", "feat", ⟨"s1", "", "h1"⟩, .minor⟩, ⟨"a", "fix", ⟨"s2", "", "h2"⟩, .patch⟩]).map
          (·.module) =
        (summarizeVersionBumpsByModule
          [⟨"a", "fix", ⟨"s2", "", "h2"⟩, .patch⟩, ⟨"b", "feat", ⟨"s1", "", "h1"⟩, .minor⟩]).map
          (·.module) :=
  c5_summarize_order
    [⟨"b", "feat", ⟨"s1", "", "h1"⟩, .minor⟩, ⟨"a", "fix", ⟨"s2", "", "h2"⟩, .patch⟩]
    [⟨"a", "fix", ⟨"s2", "", "h2"⟩, .patch⟩, ⟨"b", "feat", ⟨"s1", "", "h1"⟩, .minor⟩]
    (List.Perm.swap _ _ _)

/-! ## Severity order lemmas (claim C9) -/

/-- Rank of a severity under the order major > minor > patch (with
prerelease, which aggregation never produces, lowest). -/
def sevRank : VersionUpdate → Nat
  | .prerelease => 0
  | .patch => 1
  | .minor => 2
  | .major => 3

theorem sevRank_inj (u v : VersionUpdate) (h : sevRank u = sevRank v) : u = v := by
  revert h; cases u <;> cases v <;> decide

theorem maxVersion_self (v : VersionUpdate) (hv : v ≠ .prerelease) :
    maxVersion v v = v := by
  revert hv; cases v <;> decide

theorem maxVersion_cases (u v : VersionUpdate) (hu : u ≠ .prerelease)
    (hv : v ≠ .prerelease) : maxVersion u v = u ∨ maxVersion u v = v := by
  revert hu hv; cases u <;> cases v <;> decide

theorem sevRank_le_maxVersion_left (u v : VersionUpdate) (hu : u ≠ .prerelease)
    (hv : v ≠ .prerelease) : sevRank u ≤ sevRank (maxVersion u v) := by
  revert hu hv; cases u <;> cases v <;> decide

theorem sevRank_le_maxVersion_right (u v : VersionUpdate) (hu : u ≠ .prerelease)
    (hv : v ≠ .prerelease) : sevRank v ≤ sevRank (maxVersion u v) := by
  revert hu hv; cases u <;> cases v <;> decide

theorem foldl_maxVersion_mem (vs : List VersionUpdate) (v : VersionUpdate)
    (hv : v ≠ .prerelease) (hvs : ∀ u ∈ vs, u ≠ .prerelease) :
    vs.foldl maxVersion v = v ∨ vs.foldl maxVersion v ∈ vs := by
  induction vs generalizing v with
  | nil => exact Or.inl rfl
  | cons u us ih =>
    have hu : u ≠ .prerelease := hvs u (List.mem_cons_self u us)
    have h1 : maxVersion v u ≠ .prerelease := by
      rcases maxVersion_cases v u hv hu with h | h <;> rw [h]
      · exact hv
      · exact hu
    rw [List.foldl_cons]
    rcases ih (maxVersion v u) h1 (fun w hw => hvs w (List.mem_cons_of_mem u hw)) with h | h
    · rcases maxVersion_cases v u hv hu with h2 | h2
      · exact Or.inl (by rw [h, h2])
      · exact Or.inr (by rw [h, h2]; exact List.mem_cons_self u us)
    · exact Or.inr (List.mem_cons_of_mem u h)

theorem foldl_maxVersion_le (vs : List VersionUpdate) (v : VersionUpdate)
    (hv : v ≠ .prerelease) (hvs : ∀ u ∈ vs, u ≠ .prerelease) :
    sevRank v ≤ sevRank (vs.foldl maxVersion v)
    ∧ ∀ u ∈ vs, sevRank u ≤ sevRank (vs.foldl maxVersion v) := by
  induction vs generalizing v with
  | nil => exact ⟨le_refl _, by simp⟩
  | cons u us ih =>
    have hu : u ≠ .prerelease := hvs u (List.mem_cons_self u us)
    have h1 : maxVersion v u ≠ .prerelease := by
      rcases maxVersion_cases v u hv hu with h | h <;> rw [h]
      · exact hv
      · exact hu
    obtain ⟨ha, hb⟩ := ih (maxVersion v u) h1 (fun w hw => hvs w (List.mem_cons_of_mem u hw))
    rw [List.foldl_cons]
    constructor
    · exact le_trans (sevRank_le_maxVersion_left v u hv hu) ha
    · intro w hw
      rcases List.mem_cons.mp hw with rfl | hw2
      · exact le_trans (sevRank_le_maxVersion_right v w hv hu) ha
      · exact hb w hw2

/-- The version recorded for a grouped module is the maximum severity of
that module's bumps (as long as no bump carries `prerelease`). -/
theorem groupBumps_version_max (bs : List VersionBump)
    (hnp : ∀ vb ∈ bs, vb.version ≠ .prerelease)
    (s0 : VersionBumpSummary) (hs0 : s0 ∈ groupBumps bs) :
    s0.version ∈ (bs.filter (fun vb => vb.module = s0.module)).map (·.version)
    ∧ ∀ v ∈ (bs.filter (fun vb => vb.module = s0.module)).map (·.version),
        sevRank v ≤ sevRank s0.version := by
  have hv := (groupBumps_entry bs s0 hs0).2
  have hall : ∀ u ∈ (bs.filter (fun vb => vb.module = s0.module)).map (·.version),
      u ≠ .prerelease := by
    intro u hu
    rcases List.mem_map.mp hu with ⟨vb, hvb, rfl⟩
    exact hnp vb (List.mem_of_mem_filter hvb)
  rcases hsv : (bs.filter (fun vb => vb.module = s0.module)).map (·.version)
    with _ | ⟨v0, rest0⟩
  · rw [hsv] at hv
    exact absurd hv (by simp [aggregateSeverity])
  · rw [hsv] at hv hall
    rw [hsv]
    simp only [aggregateSeverity, Option.some.injEq] at hv
    have hvne : v0 ≠ .prerelease := hall v0 (List.mem_cons_self v0 rest0)
    have hrest : ∀ u ∈ rest0, u ≠ .prerelease :=
      fun u hu => hall u (List.mem_cons_of_mem v0 hu)
    rw [maxVersion_self v0 hvne] at hv
    constructor
    · rcases foldl_maxVersion_mem rest0 v0 hvne hrest with h | h
      · rw [hv, h]; exact List.mem_cons_self v0 rest0
      · rw [hv]; exact List.mem_cons_of_mem v0 h
    · intro u hu
      obtain ⟨ha, hb⟩ := foldl_maxVersion_le rest0 v0 hvne hrest
      rcases List.mem_cons.mp hu with rfl | hu2
      · rw [hv]; exact ha
      · rw [hv]; exact hb u hu2

/-- Claim C9: the per-module severity produced by aggregation is invariant
under permutation of the proposal list and equals the maximum (under
major > minor > patch) of the module's proposal severities. -/
theorem c9_severity (bs bs' : List VersionBump) (hperm : List.Perm bs bs')
    (hnp : ∀ vb ∈ bs, vb.version ≠ .prerelease)
    (s s' : VersionBumpSummary)
    (hs : s ∈ summarizeVersionBumpsByModule bs)
    (hs' : s' ∈ summarizeVersionBumpsByModule bs')
    (hmod : s'.module = s.module) :
    s'.version = s.version
    ∧ s.version ∈ (bs.filter (fun vb => vb.module = s.module)).map (·.version)
    ∧ ∀ v ∈ (bs.filter (fun vb => vb.module = s.module)).map (·.version),
        sevRank v ≤ sevRank s.version := by
  rcases (mem_summarize bs s).mp hs with ⟨s0, hs0, rfl⟩
  rcases (mem_summarize bs' s').mp hs' with ⟨s0', hs0', rfl⟩
  have hmod0 : s0'.module = s0.module := hmod
  have hnp' : ∀ vb ∈ bs', vb.version ≠ .prerelease :=
    fun vb hvb => hnp vb (hperm.mem_iff.mpr hvb)
  obtain ⟨hmem, hub⟩ := groupBumps_version_max bs hnp s0 hs0
  obtain ⟨hmem', hub'⟩ := groupBumps_version_max bs' hnp' s0' hs0'
  have hsevperm : List.Perm
      ((bs.filter (fun vb => vb.module = s0.module)).map (·.version))
      ((bs'.filter (fun vb => vb.module = s0'.module)).map (·.version)) := by
    rw [hmod0]
    exact (hperm.filter (fun vb => vb.module = s0.module)).map (·.version)
  refine ⟨?_, hmem, hub⟩
  show s0'.version = s0.version
  have h1 : sevRank s0'.version ≤ sevRank s0.version :=
    hub s0'.version (hsevperm.mem_iff.mpr hmem')
  have h2 : sevRank s0.version ≤ sevRank s0'.version :=
    hub' s0.version (hsevperm.mem_iff.mp hmem)
  exact sevRank_inj _ _ (le_antisymm h1 h2)

/-- Witness for `c9_severity` on a two-bump module and its swap. -/
theorem c9_severity_witness :
    (⟨"a", .minor, sortCommits [⟨"s2", "", "h2", "fix"⟩, ⟨"s1", "", "h1", "feat"⟩]⟩ :
        VersionBumpSummary).version =
      (⟨"a", .minor, sortCommits [⟨"s1", "", "h1", "feat"⟩, ⟨"s2", "", "h2", "fix"⟩]⟩ :
        VersionBumpSummary).version
    ∧ (⟨"a", .minor, sortCommits [⟨"s1", "", "h1", "feat"⟩, ⟨"s2", "", "h2", "fix"⟩]⟩ :
        VersionBumpSummary).version ∈
        (([⟨"a", "feat", ⟨"s1", "", "h1"⟩, .minor⟩,
          ⟨"a", "fix", ⟨"s2", "", "h2"⟩, .patch⟩] : List VersionBump).filter
          (fun vb => vb.module =
            (⟨"a", .minor, sortCommits [⟨"s1", "", "h1", "feat"⟩, ⟨"s2", "", "h2", "fix"⟩]⟩ :
              VersionBumpSummary).module)).map (·.version)
    ∧ ∀ v ∈ (([⟨"a", "feat", ⟨"s1", "", "h1"⟩, .minor⟩,
          ⟨"a", "fix", ⟨"s2", "", "h2"⟩, .patch⟩] : List VersionBump).filter
          (fun vb => vb.module =
            (⟨"a", .minor, sortCommits [⟨"s1", "", "h1", "feat"⟩, ⟨"s2", "", "h2", "fix"⟩]⟩ :
              VersionBumpSummary).module)).map (·.version),
        sevRank v ≤ sevRank
          (⟨"a", .minor, sortCommits [⟨"s1", "", "h1", "feat"⟩, ⟨"s2", "", "h2", "fix"⟩]⟩ :
            VersionBumpSummary).version :=
  c9_severity
    [⟨"a", "feat", ⟨"s1", "", "h1"⟩, .minor⟩, ⟨"a", "fix", ⟨"s2", "", "h2"⟩, .patch⟩]
    [⟨"a", "fix", ⟨"s2", "", "h2"⟩, .patch⟩, ⟨"a", "feat", ⟨"s1", "", "h1"⟩, .minor⟩]
    (List.Perm.swap _ _ _) (by decide)
    ⟨"a", .minor, sortCommits [⟨"s1", "", "h1", "feat"⟩, ⟨"s2", "", "h2", "fix"⟩]⟩
    ⟨"a", .minor, sortCommits [⟨"s2", "", "h2", "fix"⟩, ⟨"s1", "", "h1", "feat"⟩]⟩
    (by decide) (by decide) rfl

/-! ## Lemmas for the commit-processing loop (claim C8) -/

/-- Does a proposal's module reference resolve? -/
def resolvable (modules : List WorkspaceModule) (vb : VersionBump) : Bool :=
  (getModule vb.module modules).isSome

/-- The diagnostic `checkModuleName` produces for an unresolved reference. -/
def unresolvedDiag (vb : VersionBump) : Diagnostic :=
  ⟨.unknown_range_commit, vb.commit, "Unknown module: " ++ vb.module ++ "."⟩

/-- The proposals one commit feeds into the loop (before resolution). -/
def commitOks (modules : List WorkspaceModule) (commit : Commit) : List VersionBump :=
  if isSkippedSubject commit.subject then []
  else
    match defaultParseCommitMessage commit modules with
    | .ok parsed => parsed
    | .error _ => []

/-- The diagnostics one commit contributes to the loop. -/
def commitDiags (modules : List WorkspaceModule) (commit : Commit) : List Diagnostic :=
  if isSkippedSubject commit.subject then []
  else
    match defaultParseCommitMessage commit modules with
    | .ok parsed => (parsed.filter (fun vb => !resolvable modules vb)).map unresolvedDiag
    | .error d => [d]

theorem checkModuleName_of_resolvable (vb : VersionBump) (modules : List WorkspaceModule)
    (h : resolvable modules vb = true) : checkModuleName vb modules = none := by
  unfold checkModuleName
  rw [if_pos (show (getModule vb.module modules).isSome = true from h)]

theorem checkModuleName_of_unresolvable (vb : VersionBump)
    (modules : List WorkspaceModule) (h : resolvable modules vb = false) :
    checkModuleName vb modules = some (unresolvedDiag vb) := by
  unfold checkModuleName
  rw [if_neg (by unfold resolvable at h; simp [h])]
  rfl

theorem loop_inner (modules : List WorkspaceModule) (parsed : List VersionBump)
    (acc : List VersionBump × List Diagnostic) :
    parsed.foldl
      (fun acc vb =>
        match checkModuleName vb modules with
        | some d => (acc.1, acc.2 ++ [d])
        | none => (acc.1 ++ [vb], acc.2))
      acc =
    (acc.1 ++ parsed.filter (resolvable modules),
     acc.2 ++ (parsed.filter (fun vb => !resolvable modules vb)).map unresolvedDiag) := by
  induction parsed generalizing acc with
  | nil => simp
  | cons vb rest ih =>
    by_cases h : resolvable modules vb = true
    · simp only [List.foldl_cons, checkModuleName_of_resolvable vb modules h]
      rw [ih]
      rw [List.filter_cons_of_pos h,
        List.filter_cons_of_neg (by rw [h]; simp)]
      simp [List.append_assoc]
    · have hf : resolvable modules vb = false := by
        revert h; cases resolvable modules vb <;> simp
      simp only [List.foldl_cons, checkModuleName_of_unresolvable vb modules hf]
      rw [ih]
      rw [List.filter_cons_of_neg (by rw [hf]; simp),
        List.filter_cons_of_pos (by rw [hf]; rfl)]
      simp [List.append_assoc]

theorem loop_outer (modules : List WorkspaceModule) (commits : List Commit)
    (acc : List VersionBump × List Diagnostic) :
    commits.foldl
      (fun acc commit =>
        if isSkippedSubject commit.subject then acc
        else
          match defaultParseCommitMessage commit modules with
          | .ok parsed =>
            parsed.foldl
              (fun acc vb =>
                match checkModuleName vb modules with
                | some d => (acc.1, acc.2 ++ [d])
                | none => (acc.1 ++ [vb], acc.2))
              acc
          | .error d => (acc.1, acc.2 ++ [d]))
      acc =
    (acc.1 ++ ((commits.map (commitOks modules)).flatten).filter (resolvable modules),
     acc.2 ++ (commits.map (commitDiags modules)).flatten) := by
  induction commits generalizing acc with
  | nil => simp
  | cons c cs ih =>
    by_cases hskip : isSkippedSubject c.subject = true
    · simp only [List.foldl_cons, if_pos hskip]
      rw [ih]
      simp [commitOks, commitDiags, hskip]
    · cases hp : defaultParseCommitMessage c modules with
      | error d =>
        simp only [List.foldl_cons, if_neg hskip, hp]
        rw [ih]
        simp [commitOks, commitDiags, hskip, hp, List.append_assoc]
      | ok parsed =>
        simp only [List.foldl_cons, if_neg hskip, hp]
        rw [loop_inner, ih]
        simp [commitOks, commitDiags, hskip, hp, List.filter_append, List.append_assoc]

theorem processCommits_eq (commits : List Commit) (modules : List WorkspaceModule) :
    processCommits commits modules =
      (((commits.map (commitOks modules)).flatten).filter (resolvable modules),
       (commits.map (commitDiags modules)).flatten) := by
  unfold processCommits
  rw [loop_outer]
  simp

theorem okProposals_eq (commits : List Commit) (modules : List WorkspaceModule) :
    okProposals commits modules = (commits.map (commitOks modules)).flatten := by
  suffices h : ∀ acc : List VersionBump,
      commits.foldl
        (fun acc commit =>
          if isSkippedSubject commit.subject then acc
          else
            match defaultParseCommitMessage commit modules with
            | .ok parsed => acc ++ parsed
            | .error _ => acc)
        acc = acc ++ (commits.map (commitOks modules)).flatten by
    have h2 := h []
    simpa [okProposals] using h2
  induction commits with
  | nil => simp
  | cons c cs ih =>
    intro acc
    by_cases hskip : isSkippedSubject c.subject = true
    · simp only [List.foldl_cons, if_pos hskip]
      rw [ih]
      simp [commitOks, hskip]
    · cases hp : defaultParseCommitMessage c modules with
      | error d =>
        simp only [List.foldl_cons, if_neg hskip, hp]
        rw [ih]
        simp [commitOks, hskip, hp]
      | ok parsed =>
        simp only [List.foldl_cons, if_neg hskip, hp]
        rw [ih]
        simp [commitOks, hskip, hp, List.append_assoc]

theorem getModule_first (mref : String) (mods : List WorkspaceModule)
    (x : WorkspaceModule) (h : getModule mref mods = some x) :
    moduleNameMatches mref x = true
    ∧ ∃ pre suf, mods = pre ++ x :: suf
        ∧ ∀ y ∈ pre, moduleNameMatches mref y = false := by
  induction mods with
  | nil => simp [getModule] at h
  | cons m ms ih =>
    by_cases hm : moduleNameMatches mref m = true
    · rw [getModule, List.find?_cons_of_pos _ hm] at h
      have hx : m = x := Option.some.inj h
      subst hx
      exact ⟨hm, [], ms, rfl, by simp⟩
    · rw [getModule, List.find?_cons_of_neg _ hm] at h
      obtain ⟨h1, pre, suf, heq, hall⟩ := ih h
      refine ⟨h1, m :: pre, suf, by rw [heq]; rfl, ?_⟩
      intro y hy
      rcases List.mem_cons.mp hy with rfl | hy2
      · revert hm; cases moduleNameMatches mref y <;> simp
      · exact hall y hy2

/-- Claim C8: a proposal's module reference resolves to the first module
whose name matches exactly or by the `"/" + ref` suffix rule; an
unresolved proposal becomes the `unresolved_module`
(`unknown_range_commit`) diagnostic, never reaches the collected bumps —
in particular its module never appears among the aggregated decisions —
while exactly the resolvable proposals of the run proceed to
aggregation. -/
theorem c8_resolution (commits : List Commit) (modules : List WorkspaceModule)
    (vb : VersionBump)
    (hvb : vb ∈ okProposals commits modules)
    (hun : getModule vb.module modules = none) :
    checkModuleName vb modules = some (unresolvedDiag vb)
    ∧ vb ∉ (processCommits commits modules).1
    ∧ unresolvedDiag vb ∈ (processCommits commits modules).2
    ∧ vb.module ∉
        (summarizeVersionBumpsByModule (processCommits commits modules).1).map (·.module)
    ∧ (processCommits commits modules).1 =
        (okProposals commits modules).filter (resolvable modules)
    ∧ (∀ mref x, getModule mref modules = some x →
        moduleNameMatches mref x = true
        ∧ ∃ pre suf, modules = pre ++ x :: suf
            ∧ ∀ y ∈ pre, moduleNameMatches mref y = false)
    ∧ (∀ mref : String, getModule mref modules = none ↔
        ∀ y ∈ modules, moduleNameMatches mref y = false) := by
  have hres : resolvable modules vb = false := by
    unfold resolvable
    rw [hun]
    rfl
  have hchar := processCommits_eq commits modules
  have hoks := okProposals_eq commits modules
  refine ⟨checkModuleName_of_unresolvable vb modules hres, ?_, ?_, ?_, ?_, ?_, ?_⟩
  · intro hmem
    rw [hchar] at hmem
    have h2 := List.of_mem_filter hmem
    rw [hres] at h2
    exact Bool.noConfusion h2
  · rw [hoks] at hvb
    obtain ⟨lc, hlc, hvbl⟩ := List.mem_flatten.mp hvb
    obtain ⟨c, hc, rfl⟩ := List.mem_map.mp hlc
    rw [hchar]
    show unresolvedDiag vb ∈ (commits.map (commitDiags modules)).flatten
    refine List.mem_flatten.mpr ⟨commitDiags modules c, List.mem_map_of_mem _ hc, ?_⟩
    unfold commitOks at hvbl
    unfold commitDiags
    by_cases hskip : isSkippedSubject c.subject = true
    · rw [if_pos hskip] at hvbl
      exact absurd hvbl (List.not_mem_nil vb)
    · rw [if_neg hskip] at hvbl
      rw [if_neg hskip]
      cases hp : defaultParseCommitMessage c modules with
      | error d =>
        rw [hp] at hvbl
        exact absurd hvbl (List.not_mem_nil vb)
      | ok parsed =>
        rw [hp] at hvbl
        refine List.mem_map_of_mem unresolvedDiag ?_
        refine List.mem_filter.mpr ⟨hvbl, ?_⟩
        rw [hres]
        rfl
  · intro hk
    rw [(summarize_keys_perm _).mem_iff, groupBumps_keys_mem] at hk
    obtain ⟨vb2, hvb2, hmod2⟩ := List.mem_map.mp hk
    rw [hchar] at hvb2
    have h2 := List.of_mem_filter hvb2
    unfold resolvable at h2
    rw [hmod2, hun] at h2
    exact Bool.noConfusion h2
  · rw [hchar, hoks]
  · intro mref x h
    exact getModule_first mref modules x h
  · intro mref
    unfold getModule
    rw [List.find?_eq_none]
    constructor
    · intro h y hy
      have h2 := h y hy
      revert h2
      cases moduleNameMatches mref y <;> simp
    · intro h y hy
      rw [h y hy]
      simp

/-- Witness for `c8_resolution`: one commit whose scope `zzz` resolves to
no module. -/
theorem c8_resolution_witness :
    checkModuleName ⟨"zzz", "fix", ⟨"fix(zzz): y", "", "h2"⟩, .patch⟩
        [⟨"scope/a", "0.1.0", "p"⟩] =
      some (unresolvedDiag ⟨"zzz", "fix", ⟨"fix(zzz): y", "", "h2"⟩, .patch⟩)
    ∧ (⟨"zzz", "fix", ⟨"fix(zzz): y", "", "h2"⟩, .patch⟩ : VersionBump) ∉
        (processCommits [⟨"fix(zzz): y", "", "h2"⟩] [⟨"scope/a", "0.1.0", "p"⟩]).1
    ∧ unresolvedDiag ⟨"zzz", "fix", ⟨"fix(zzz): y", "", "h2"⟩, .patch⟩ ∈
        (processCommits [⟨"fix(zzz): y", "", "h2"⟩] [⟨"scope/a", "0.1.0", "p"⟩]).2
    ∧ (⟨"zzz", "fix", ⟨"fix(zzz): y", "", "h2"⟩, .patch⟩ : VersionBump).module ∉
        (summarizeVersionBumpsByModule
          (processCommits [⟨"fix(zzz): y", "", "h2"⟩] [⟨"scope/a", "0.1.0", "p"⟩]).1).map
          (·.module)
    ∧ (processCommits [⟨"fix(zzz): y", "", "h2"⟩] [⟨"scope/a", "0.1.0", "p"⟩]).1 =
        (okProposals [⟨"fix(zzz): y", "", "h2"⟩] [⟨"scope/a", "0.1.0", "p"⟩]).filter
          (resolvable [⟨"scope/a", "0.1.0", "p"⟩])
    ∧ (∀ mref x, getModule mref [⟨"scope/a", "0.1.0", "p"⟩] = some x →
        moduleNameMatches mref x = true
        ∧ ∃ pre suf, [⟨"scope/a", "0.1.0", "p"⟩] = pre ++ x :: suf
            ∧ ∀ y ∈ pre, moduleNameMatches mref y = false)
    ∧ (∀ mref : String, getModule mref [⟨"scope/a", "0.1.0", "p"⟩] = none ↔
        ∀ y ∈ [(⟨"scope/a", "0.1.0", "p"⟩ : WorkspaceModule)],
          moduleNameMatches mref y = false) :=
  c8_resolution [⟨"fix(zzz): y", "", "h2"⟩] [⟨"scope/a", "0.1.0", "p"⟩]
    ⟨"zzz", "fix", ⟨"fix(zzz): y", "", "h2"⟩, .patch⟩ (by decide) (by decide)

end BumpWorkspaces
